import Mathlib

/-!
# ipfiltering: allow/deny classification of network addresses

A shallow embedding of `ipfiltering.go` (package `ipfiltering`) together with the
parts of the Go standard library it calls (`net.ParseIP`, `net.ParseCIDR`,
`IPMask.Size`, `IP.String`, `IPNet.Contains`, `net.SplitHostPort`,
`strings.Split`, `strings.TrimSpace`).  The library functions follow the Go
sources (`net/ip.go`, `net/ipsock.go`, `net/netip/netip.go` as of Go 1.23).

Conventions
* A Go `string` (taken to be valid UTF-8) is a Lean `String`; parsers work on its
  list of characters, every character outside ASCII being rejected like its bytes.
* A Go `[]byte` that may be `nil` (`net.IP`, `net.IPMask`) is an
  `Option (List Nat)`: `none` is the nil slice, bytes are naturals below 256.
* A Go `map[string]bool` is a function `String → Option Bool`.
* Methods with pointer receivers that mutate the filter return the new filter.
-/

namespace ipfiltering

/-! ## Standard library: characters and small helpers -/

/-- The test `c >= '0' && c <= '9'`. -/
def isDigit (c : Char) : Bool := decide (48 ≤ c.toNat) && decide (c.toNat ≤ 57)

/-- The test `c >= 'a' && c <= 'f'`. -/
def isLowerHex (c : Char) : Bool := decide (97 ≤ c.toNat) && decide (c.toNat ≤ 102)

/-- The test `c >= 'A' && c <= 'F'`. -/
def isUpperHex (c : Char) : Bool := decide (65 ≤ c.toNat) && decide (c.toNat ≤ 70)

/-- A nil-able byte slice, the representation of `net.IP` and `net.IPMask`. -/
abbrev IP := Option (List Nat)

/-- The type `net.IPMask`. -/
abbrev IPMask := Option (List Nat)

/-- The builtin `len` on a byte slice: a nil slice has length 0. -/
def IP.len (ip : IP) : Nat := (ip.getD []).length

/-- The bytes of a slice, a nil slice having none. -/
def IP.bytes (ip : IP) : List Nat := ip.getD []

/-! ## Standard library: `netip.ParseAddr` -/

/-- The loop of `netip.parseIPv4Fields` over the remaining characters.
`prev` is the previous character (`none` at index 0), `val` and `digLen` are the
loop variables of the same name, and `fields` holds the octets stored so far, so
that `pos = fields.length`.  The result is the final `val` and the stored octets;
`none` stands for every error return. -/
def parseIPv4Fields.loop : List Char → Option Char → Nat → Nat → List Nat → Option (Nat × List Nat)
  | [], _, val, _, fields => some (val, fields)
  | c :: rest, prev, val, digLen, fields =>
    if isDigit c then
      if digLen = 1 ∧ val = 0 then none
      else
        if val * 10 + (c.toNat - 48) > 255 then none
        else parseIPv4Fields.loop rest (some c) (val * 10 + (c.toNat - 48)) (digLen + 1) fields
    else if c = '.' then
      if prev = none ∨ rest = [] ∨ prev = some '.' then none
      else if fields.length = 3 then none
      else parseIPv4Fields.loop rest (some c) 0 0 (fields ++ [val])
    else none

/-- The function `netip.parseIPv4Fields` on the substring `in[off:end]`: the four
octets, or `none` on error. -/
def parseIPv4Fields (s : List Char) : Option (List Nat) :=
  match parseIPv4Fields.loop s none 0 0 [] with
  | none => none
  | some (val, fields) => if fields.length < 3 then none else some (fields ++ [val])

/-- A parsed `netip.Addr`: its 16-byte form (`As16`), whether it is an IPv4
address (`Is4`), and its zone. -/
structure Addr where
  as16 : List Nat
  is4 : Bool
  zone : List Char
  deriving DecidableEq

/-- The 12-byte lead `v4InV6Prefix` of an IPv4-mapped IPv6 address. -/
def v4InV6Lead : List Nat := [0, 0, 0, 0, 0, 0, 0, 0, 0, 0, 255, 255]

/-- The function `netip.AddrFrom4` followed by nothing else: an IPv4 address, whose
`As16` form is the IPv4-mapped address. -/
def AddrFrom4 (fields : List Nat) : Addr := ⟨v4InV6Lead ++ fields, true, []⟩

/-- The function `netip.parseIPv4`. -/
def parseIPv4 (s : List Char) : Option Addr :=
  match parseIPv4Fields s with
  | none => none
  | some fields => some (AddrFrom4 fields)

/-- The inner loop of `netip.parseIPv6` reading one hex group: `off` digits read so
far with value `acc`.  Returns the final `off`, `acc` and the unread rest `s[off:]`;
`none` when a group has more than four digits or exceeds 16 bits. -/
def scanHex : List Char → Nat → Nat → Option (Nat × Nat × List Char)
  | [], off, acc => some (off, acc, [])
  | c :: rest, off, acc =>
    if isDigit c then
      if off > 3 then none
      else if acc * 16 + (c.toNat - 48) > 65535 then none
      else scanHex rest (off + 1) (acc * 16 + (c.toNat - 48))
    else if isLowerHex c then
      if off > 3 then none
      else if acc * 16 + (c.toNat - 97 + 10) > 65535 then none
      else scanHex rest (off + 1) (acc * 16 + (c.toNat - 97 + 10))
    else if isUpperHex c then
      if off > 3 then none
      else if acc * 16 + (c.toNat - 65 + 10) > 65535 then none
      else scanHex rest (off + 1) (acc * 16 + (c.toNat - 65 + 10))
    else some (off, acc, c :: rest)

/-- The main loop `for i < 16` of `netip.parseIPv6`.  The first argument counts the
16-bit groups that still fit (`i = 16 - 2k`, so `k = 0` is the loop condition
failing); `bytes` is the part `ip[0:i]` written so far and `ellipsis` the position of
`::` if one was seen.  Returns the unread input, the bytes written and the ellipsis
position at loop exit; `none` stands for every error return inside the loop. -/
def parseIPv6.loop : Nat → List Char → List Nat → Option Nat →
    Option (List Char × List Nat × Option Nat)
  | 0, s, bytes, ellipsis => some (s, bytes, ellipsis)
  | k + 1, s, bytes, ellipsis =>
    match scanHex s 0 0 with
    | none => none
    | some (off, acc, rest) =>
      if off = 0 then none
      else if rest.head? = some '.' then
        if ellipsis = none ∧ bytes.length ≠ 12 then none
        else if bytes.length + 4 > 16 then none
        else
          match parseIPv4Fields s with
          | none => none
          | some fields => some ([], bytes ++ fields, ellipsis)
      else
        match rest with
        | [] => some ([], bytes ++ [acc / 256 % 256, acc % 256], ellipsis)
        | c :: s1 =>
          if c ≠ ':' then none
          else
            match s1 with
            | [] => none
            | c1 :: s2 =>
              if c1 = ':' then
                if ellipsis.isSome then none
                else
                  match s2 with
                  | [] => some ([], bytes ++ [acc / 256 % 256, acc % 256], some (bytes.length + 2))
                  | _ :: _ =>
                    parseIPv6.loop k s2 (bytes ++ [acc / 256 % 256, acc % 256])
                      (some (bytes.length + 2))
              else parseIPv6.loop k s1 (bytes ++ [acc / 256 % 256, acc % 256]) ellipsis

/-- The end of `netip.parseIPv6`, after the loop: the whole string must have been
used; a short address is completed at the ellipsis, by moving the bytes after it to
the end and zero-filling the gap; a full one must not have an ellipsis. -/
def parseIPv6.finish (zone : List Char) :
    Option (List Char × List Nat × Option Nat) → Option Addr
  | none => none
  | some (rest, bytes, ellipsis) =>
    if rest ≠ [] then none
    else if bytes.length < 16 then
      match ellipsis with
      | none => none
      | some e =>
        some ⟨bytes.take e ++ List.replicate (16 - bytes.length) 0 ++ bytes.drop e, false, zone⟩
    else if ellipsis.isSome then none
    else some ⟨bytes, false, zone⟩

/-- The part of `netip.parseIPv6` after the zone has been split off: a leading `::`
is consumed (and may be the whole address), then the groups are read by the loop. -/
def parseIPv6.groups (s : List Char) (zone : List Char) : Option Addr :=
  if s.take 2 = [':', ':'] then
    if s.drop 2 = [] then some ⟨List.replicate 16 0, false, zone⟩
    else parseIPv6.finish zone (parseIPv6.loop 8 (s.drop 2) [] (some 0))
  else parseIPv6.finish zone (parseIPv6.loop 8 s [] none)

/-- The function `netip.parseIPv6`.  The zone is split off at the first `%` and must
not be empty when the `%` is there. -/
def parseIPv6 (inp : List Char) : Option Addr :=
  if inp.dropWhile (fun c => c ≠ '%') ≠ [] ∧ (inp.dropWhile (fun c => c ≠ '%')).tail = [] then none
  else parseIPv6.groups (inp.takeWhile (fun c => c ≠ '%')) (inp.dropWhile (fun c => c ≠ '%')).tail

/-- The scan at the head of `netip.ParseAddr`: the first `.`, `:` or `%` of the
string decides how the whole string `whole` is parsed. -/
def ParseAddr.scan (whole : List Char) : List Char → Option Addr
  | [] => none
  | c :: rest =>
    if c = '.' then parseIPv4 whole
    else if c = ':' then parseIPv6 whole
    else if c = '%' then none
    else ParseAddr.scan whole rest

/-- The function `netip.ParseAddr`. -/
def ParseAddr (s : List Char) : Option Addr := ParseAddr.scan s s

/-! ## Standard library: package `net` -/

/-- The function `net.ParseIP`: the 16-byte form of the address, or nil when the
string is not an address or carries a zone. -/
def ParseIP (s : String) : IP :=
  match ParseAddr s.toList with
  | none => none
  | some a => if a.zone ≠ [] then none else some a.as16

/-- The constant `big` of `net/parse.go`. -/
def big : Nat := 0xFFFFFF

/-- The loop of `net.dtoi`: `n` is the value and `i` the number of digits read.  The
flag is `false` when the loop returned early because the value reached `big`. -/
def dtoi.loop : List Char → Nat → Nat → Nat × Nat × Bool
  | [], n, i => (n, i, true)
  | c :: rest, n, i =>
    if isDigit c then
      if n * 10 + (c.toNat - 48) ≥ big then (big, i, false)
      else dtoi.loop rest (n * 10 + (c.toNat - 48)) (i + 1)
    else (n, i, true)

/-- The function `net.dtoi`: decimal to integer, returning the value, the number of
characters consumed and a success flag. -/
def dtoi (s : List Char) : Nat × Nat × Bool :=
  match dtoi.loop s 0 0 with
  | (n, i, false) => (n, i, false)
  | (n, i, true) => if i = 0 then (0, 0, false) else (n, i, true)

/-- The loop of `net.CIDRMask` filling `l` bytes with `n` one bits left to place. -/
def CIDRMask.fill : Nat → Nat → List Nat
  | 0, _ => []
  | l + 1, n =>
    if n ≥ 8 then 255 :: CIDRMask.fill l (n - 8)
    else (255 - 255 / 2 ^ n) :: CIDRMask.fill l 0

/-- The function `net.CIDRMask` (the argument `ones` is never negative here). -/
def CIDRMask (ones bits : Nat) : IPMask :=
  if bits ≠ 32 ∧ bits ≠ 128 then none
  else if ones > bits then none
  else some (CIDRMask.fill (bits / 8) ones)

/-- The function `net.allFF`. -/
def allFF (b : List Nat) : Bool := b.all (fun c => c == 255)

/-- Bytewise `ip[i] & mask[i]`. -/
def andBytes : List Nat → List Nat → List Nat
  | a :: as, m :: ms => (a &&& m) :: andBytes as ms
  | _, _ => []

/-- The method `net.IP.Mask`. -/
def IP.Mask (ip : IP) (mask : IPMask) : IP :=
  let mask1 : IPMask :=
    if IP.len mask = 16 ∧ IP.len ip = 4 ∧ allFF ((IP.bytes mask).take 12) then some ((IP.bytes mask).drop 12)
    else mask
  let ip1 : IP :=
    if IP.len mask1 = 4 ∧ IP.len ip = 16 ∧ (IP.bytes ip).take 12 = v4InV6Lead then some ((IP.bytes ip).drop 12)
    else ip
  if IP.len ip1 ≠ IP.len mask1 then none
  else some (andBytes (IP.bytes ip1) (IP.bytes mask1))

/-- The type `net.IPNet`. -/
structure IPNet where
  IP : IP
  Mask : IPMask
  deriving DecidableEq

/-- The loop `for v&0x80 != 0 { n++; v <<= 1 }` of `net.simpleMaskLength` on a byte `v`;
a byte other than `0xff` leaves the loop within eight rounds.  Returns `n` and `v`. -/
def simpleMaskLength.ones : Nat → Nat → Nat → Nat × Nat
  | 0, n, v => (n, v)
  | fuel + 1, n, v =>
    if v &&& 0x80 ≠ 0 then simpleMaskLength.ones fuel (n + 1) (v * 2 % 256)
    else (n, v)

/-- The function `net.simpleMaskLength` with running count `n`: `none` is the
result `-1`. -/
def simpleMaskLength : List Nat → Nat → Option Nat
  | [], n => some n
  | v :: rest, n =>
    if v = 255 then simpleMaskLength rest (n + 8)
    else
      match simpleMaskLength.ones 8 n v with
      | (n1, v1) =>
        if v1 ≠ 0 then none
        else if rest.any (fun b => b != 0) then none
        else some n1

/-- The method `net.IPMask.Size`: the number of leading ones and the number of bits
of the mask, or `(0, 0)` for a mask not in canonical form. -/
def IPMask.Size (m : IPMask) : Nat × Nat :=
  match simpleMaskLength (IP.bytes m) 0 with
  | none => (0, 0)
  | some ones => (ones, IP.len m * 8)

/-- The function `net.isZeros`. -/
def isZeros (p : List Nat) : Bool := p.all (fun b => b == 0)

/-- The method `net.IP.To4`. -/
def IP.To4 (ip : IP) : IP :=
  if IP.len ip = 4 then ip
  else if IP.len ip = 16 ∧ isZeros ((IP.bytes ip).take 10) ∧ (IP.bytes ip).get? 10 = some 255 ∧
      (IP.bytes ip).get? 11 = some 255 then some (((IP.bytes ip).drop 12).take 4)
  else none

/-- The function `net.networkNumberAndMask`. -/
def networkNumberAndMask (n : IPNet) : IP × IPMask :=
  let ip : IP := if IP.To4 n.IP = none then n.IP else IP.To4 n.IP
  if IP.To4 n.IP = none ∧ IP.len ip ≠ 16 then (none, none)
  else if IP.len n.Mask = 4 then
    if IP.len ip ≠ 4 then (none, none) else (ip, n.Mask)
  else if IP.len n.Mask = 16 then
    if IP.len ip = 4 then (ip, some ((IP.bytes n.Mask).drop 12)) else (ip, n.Mask)
  else (none, none)

/-- The comparison loop of `net.IPNet.Contains`: `nn[i]&m[i] == ip[i]&m[i]` for every
index. -/
def sameMasked : List Nat → List Nat → List Nat → Bool
  | n :: ns, m :: ms, x :: xs => (n &&& m) == (x &&& m) && sameMasked ns ms xs
  | _, _, _ => true

/-- The method `net.IPNet.Contains`. -/
def IPNet.Contains (n : IPNet) (ip : ipfiltering.IP) : Bool :=
  let nn := (networkNumberAndMask n).1
  let m := (networkNumberAndMask n).2
  let ip1 : ipfiltering.IP := if IP.To4 ip = none then ip else IP.To4 ip
  if IP.len ip1 ≠ IP.len nn then false
  else sameMasked (IP.bytes nn) (IP.bytes m) (IP.bytes ip1)

/-- The table `digits` / `hexDigit`: the character of a hex digit. -/
def hexDigit (d : Nat) : Char := "0123456789abcdef".toList.getD d '0'

/-- The function `netip.appendDecimal` for one octet. -/
def appendDecimal (x : Nat) : List Char :=
  (if x ≥ 100 then [hexDigit (x / 100)] else []) ++
  (if x ≥ 10 then [hexDigit (x / 10 % 10)] else []) ++ [hexDigit (x % 10)]

/-- The function `netip.appendHex` for one 16-bit group. -/
def appendHex (x : Nat) : List Char :=
  (if x ≥ 0x1000 then [hexDigit (x / 4096)] else []) ++
  (if x ≥ 0x100 then [hexDigit (x / 256 % 16)] else []) ++
  (if x ≥ 0x10 then [hexDigit (x / 16 % 16)] else []) ++ [hexDigit (x % 16)]

/-- The function `net.hexString`. -/
def hexString (b : List Nat) : List Char :=
  b.flatMap (fun tn => [hexDigit (tn / 16), hexDigit (tn % 16)])

/-- The method `netip.Addr.string4` on four octets. -/
def string4 (p : List Nat) : List Char :=
  appendDecimal (p.getD 0 0) ++ ['.'] ++ appendDecimal (p.getD 1 0) ++ ['.'] ++
  appendDecimal (p.getD 2 0) ++ ['.'] ++ appendDecimal (p.getD 3 0)

/-- The accessor `v6u16`: the `i`-th 16-bit group of a 16-byte address. -/
def v6u16 (ip : List Nat) (i : Nat) : Nat := ip.getD (2 * i) 0 * 256 + ip.getD (2 * i + 1) 0

/-- The first loop of `netip.Addr.appendTo6`: the longest run of two or more zero
groups, as `(zeroStart, zeroEnd)`, starting from `(255, 255)`. -/
def zeroRun (ip : List Nat) : Nat × Nat :=
  [0, 1, 2, 3, 4, 5, 6, 7].foldl
    (fun z i =>
      let l := (([i, i + 1, i + 2, i + 3, i + 4, i + 5, i + 6, i + 7].filter (fun j => j < 8)).takeWhile
        (fun j => v6u16 ip j == 0)).length
      if l ≥ 2 ∧ l > z.2 - z.1 then (i, i + l) else z)
    (255, 255)

/-- The second loop of `netip.Addr.appendTo6`, from group `i` on; the group index
grows in every round, so eight rounds are enough. -/
def appendTo6.loop (ip : List Nat) (zeroStart zeroEnd : Nat) : Nat → Nat → List Char
  | 0, _ => []
  | fuel + 1, i =>
    if i ≥ 8 then []
    else if i = zeroStart then
      [':', ':'] ++
        (if zeroEnd ≥ 8 then []
         else appendHex (v6u16 ip zeroEnd) ++ appendTo6.loop ip zeroStart zeroEnd fuel (zeroEnd + 1))
    else
      (if i > 0 then [':'] else []) ++ appendHex (v6u16 ip i) ++
        appendTo6.loop ip zeroStart zeroEnd fuel (i + 1)

/-- The method `netip.Addr.string6` for an address without zone. -/
def string6 (ip : List Nat) : List Char :=
  appendTo6.loop ip (zeroRun ip).1 (zeroRun ip).2 8 0

/-- The method `net.IP.String`.  (The IPv4-mapped case of `netip.Addr.String` cannot
arise in the last branch, `To4` having been tried first.) -/
def IP.string (ip : IP) : String :=
  if IP.len ip = 0 then "<nil>"
  else if IP.len ip ≠ 4 ∧ IP.len ip ≠ 16 then String.mk ('?' :: hexString (IP.bytes ip))
  else if IP.len (IP.To4 ip) = 4 then String.mk (string4 (IP.bytes (IP.To4 ip)))
  else String.mk (string6 (IP.bytes ip))

/-- The method `netip.Addr.BitLen`. -/
def Addr.BitLen (a : Addr) : Nat := if a.is4 then 32 else 128

/-- The function `net.ParseCIDR`: the address and the network, or `none` for the
error return. -/
def ParseCIDR (s : String) : Option (IP × IPNet) :=
  let addr := s.toList.takeWhile (fun c => c ≠ '/')
  let after := s.toList.dropWhile (fun c => c ≠ '/')
  if after = [] then none
  else
    match ParseAddr addr with
    | none => none
    | some a =>
      if a.zone ≠ [] then none
      else
        match dtoi after.tail with
        | (n, i, ok) =>
          if ok = false ∨ i ≠ after.tail.length ∨ n > a.BitLen then none
          else
            some (some a.as16,
              ⟨IP.Mask (some a.as16) (CIDRMask n a.BitLen), CIDRMask n a.BitLen⟩)

/-- The function `bytealg.IndexByteString`: the index of the first `c` in `s`, `none`
standing for `-1`. -/
def IndexByteString : List Char → Char → Option Nat
  | [], _ => none
  | x :: xs, c => if x = c then some 0 else (IndexByteString xs c).map (fun j => j + 1)

/-- The function `bytealg.LastIndexByteString`: the index of the last `c` in `s`. -/
def LastIndexByteString (s : List Char) (c : Char) : Option Nat :=
  (IndexByteString s.reverse c).map (fun j => s.length - 1 - j)

/-- The function `net.SplitHostPort`: host and port, or `none` for the error return
(on which the Go function returns empty strings). -/
def SplitHostPort (hostport : List Char) : Option (List Char × List Char) :=
  match LastIndexByteString hostport ':' with
  | none => none
  | some i =>
    if hostport.head? = some '[' then
      match IndexByteString hostport ']' with
      | none => none
      | some e =>
        if e + 1 = hostport.length then none
        else if e + 1 = i then
          if IndexByteString (hostport.drop 1) '[' ≠ none then none
          else if IndexByteString (hostport.drop (e + 1)) ']' ≠ none then none
          else some ((hostport.take e).drop 1, hostport.drop (i + 1))
        else none
    else
      if IndexByteString (hostport.take i) ':' ≠ none then none
      else if IndexByteString hostport '[' ≠ none then none
      else if IndexByteString hostport ']' ≠ none then none
      else some (hostport.take i, hostport.drop (i + 1))

/-! ## Standard library: package `strings` -/

/-- The loop of `strings.Split` for a one-character separator; `cur` is the piece
being read, in reverse. -/
def Split.go (sep : Char) : List Char → List Char → List (List Char)
  | [], cur => [cur.reverse]
  | c :: rest, cur =>
    if c = sep then cur.reverse :: Split.go sep rest [] else Split.go sep rest (c :: cur)

/-- The function `strings.Split` for a one-character separator. -/
def Split (s : List Char) (sep : Char) : List (List Char) := Split.go sep s []

/-- The function `unicode.IsSpace`. -/
def isSpace (c : Char) : Bool :=
  let n := c.toNat
  decide (9 ≤ n ∧ n ≤ 13) || n == 0x20 || n == 0x85 || n == 0xA0 || n == 0x1680 ||
  decide (0x2000 ≤ n ∧ n ≤ 0x200a) || n == 0x2028 || n == 0x2029 || n == 0x202f ||
  n == 0x205f || n == 0x3000

/-- The function `strings.TrimSpace`. -/
def TrimSpace (s : List Char) : List Char :=
  ((s.dropWhile isSpace).reverse.dropWhile isSpace).reverse

/-! ## The filter (`ipfiltering.go`) -/

/-- The constant `XFFHeader`. -/
def XFFHeader : String := "X-Forwarded-For"

/-- The struct `Options` (its `Logger` is never called by the package and is left
out). -/
structure Options where
  AllowedIPs : List String
  BlockedIPs : List String
  BlockByDefault : Bool
  deriving DecidableEq

/-- The struct `subnet`. -/
structure subnet where
  str : String
  ipnet : IPNet
  allowed : Bool
  deriving DecidableEq

/-- The struct `IpFiltering`. -/
structure IpFiltering where
  opts : Options
  defaultAllowed : Bool
  ips : String → Option Bool
  codes : String → Option Bool
  subnets : List subnet

/-- The `for` loop of `ToggleIP` over `f.subnets`: the first entry whose `str` is the
given one gets the new verdict and the loop breaks.  Returns `found` and the list. -/
def ToggleIP.loop (str : String) (allowed : Bool) : List subnet → Bool × List subnet
  | [] => (false, [])
  | sn :: rest =>
    if sn.str = str then (true, { sn with allowed := allowed } :: rest)
    else ((ToggleIP.loop str allowed rest).1, sn :: (ToggleIP.loop str allowed rest).2)

/-- The method `ToggleIP`: the filter after the call and the returned boolean. -/
def ToggleIP (f : IpFiltering) (str : String) (allowed : Bool) : IpFiltering × Bool :=
  match ParseCIDR str with
  | some (ip, netAddress) =>
    if (IPMask.Size netAddress.Mask).1 = (IPMask.Size netAddress.Mask).2 then
      ({ f with ips := Function.update f.ips (IP.string ip) (some allowed) }, true)
    else
      if (ToggleIP.loop str allowed f.subnets).1 = false then
        ({ f with subnets := (ToggleIP.loop str allowed f.subnets).2 ++
            [⟨str, netAddress, allowed⟩] }, true)
      else ({ f with subnets := (ToggleIP.loop str allowed f.subnets).2 }, true)
  | none =>
    match ParseIP str with
    | some ip => ({ f with ips := Function.update f.ips (IP.string (some ip)) (some allowed) }, true)
    | none => (f, false)

/-- The method `AllowIP`. -/
def AllowIP (f : IpFiltering) (ip : String) : IpFiltering × Bool := ToggleIP f ip true

/-- The method `BlockIP`. -/
def BlockIP (f : IpFiltering) (ip : String) : IpFiltering × Bool := ToggleIP f ip false

/-- The constructor `New`. -/
def New (opts : Options) : IpFiltering :=
  opts.AllowedIPs.foldl (fun f ip => (AllowIP f ip).1)
    (opts.BlockedIPs.foldl (fun f ip => (BlockIP f ip).1)
      ⟨opts, !opts.BlockByDefault, fun _ => none, fun _ => none, []⟩)

/-- The method `ToggleDefault`. -/
def ToggleDefault (f : IpFiltering) (allowed : Bool) : IpFiltering :=
  { f with defaultAllowed := allowed }

/-- The `for` loop of `NetAllowed` over the subnets with loop variable `blocked`:
`Sum.inl r` is a `return r` from inside the loop, `Sum.inr b` the value of `blocked`
when the loop ends. -/
def NetAllowed.loop (ip : IP) : List subnet → Bool → Bool ⊕ Bool
  | [], blocked => Sum.inr blocked
  | sn :: rest, blocked =>
    if sn.ipnet.Contains ip then
      if sn.allowed then Sum.inl true
      else NetAllowed.loop ip rest true
    else NetAllowed.loop ip rest blocked

/-- The method `NetAllowed`. -/
def NetAllowed (f : IpFiltering) (ip : IP) : Bool :=
  match ip with
  | none => false
  | some b =>
    match f.ips (IP.string (some b)) with
    | some allowed => allowed
    | none =>
      match NetAllowed.loop (some b) f.subnets false with
      | Sum.inl r => r
      | Sum.inr blocked => if blocked then false else f.defaultAllowed

/-- The method `Allowed`. -/
def Allowed (f : IpFiltering) (ipstr : String) : Bool := NetAllowed f (ParseIP ipstr)

/-- The method `Blocked`. -/
def Blocked (f : IpFiltering) (ip : String) : Bool := !Allowed f ip

/-- The method `NetBlocked`. -/
def NetBlocked (f : IpFiltering) (ip : IP) : Bool := !NetAllowed f ip

/-! ## The middleware -/

/-- The struct `MiddlewareOptions`. -/
structure MiddlewareOptions where
  Options : Options
  TrustXFFHeader : Bool

/-- The part of `http.Request` the middleware reads: the peer address and the
headers (canonical key to values). -/
structure Request where
  RemoteAddr : String
  Header : String → List String

/-- The method `http.Header.Get` for a key in canonical form: the first value, or the
empty string. -/
def Request.HeaderGet (r : Request) (key : String) : String := (r.Header key).headD ""

/-- The struct `ipFilteringMiddleware` (the `next` handler is not part of the
state). -/
structure ipFilteringMiddleware where
  IpFiltering : IpFiltering
  options : MiddlewareOptions

/-- The function `Middleware`. -/
def Middleware (options : MiddlewareOptions) : ipFilteringMiddleware :=
  ⟨New options.Options, options⟩

/-- The method `getIp`. -/
def getIp (m : ipFilteringMiddleware) (r : Request) : String :=
  let remoteAddr : String :=
    if m.options.TrustXFFHeader ∧ r.HeaderGet XFFHeader ≠ "" then
      String.mk (TrimSpace ((Split (r.HeaderGet XFFHeader).toList ',').headD []))
    else r.RemoteAddr
  match SplitHostPort remoteAddr.toList with
  | none => ""
  | some (ip, _) => String.mk ip

/-- What `ServeHTTP` does with a request: answer with `http.Error`, or call the next
handler with the request. -/
inductive Served where
  | error (body : String) (code : Nat)
  | next (r : Request)

/-- The method `ServeHTTP` (`http.StatusForbidden` is 403 and its status text
`Forbidden`). -/
def ServeHTTP (m : ipFilteringMiddleware) (r : Request) : Served :=
  if !Allowed m.IpFiltering (getIp m r) then Served.error "Forbidden" 403
  else Served.next r

/-! ## Auxiliary definitions used to state the properties -/

/-- The decision as the specification words it: an exact entry decides; otherwise
the whole range list is scanned for `anyAllow` (some range containing the address is
marked allow) and `anyBlock` (some range containing it is marked block), allow
beating block and the default verdict deciding when no range matches. -/
def fullScanDecision (f : IpFiltering) (ip : List Nat) : Bool :=
  match f.ips (IP.string (some ip)) with
  | some verdict => verdict
  | none =>
    let anyAllow := f.subnets.any (fun sn => sn.ipnet.Contains (some ip) && sn.allowed)
    let anyBlock := f.subnets.any (fun sn => sn.ipnet.Contains (some ip) && !sn.allowed)
    if anyAllow then true else if anyBlock then false else f.defaultAllowed

/-- The characters that can occur in an address without zone: hex digits, `:` and
`.`. -/
def addrChar (c : Char) : Bool :=
  isDigit c || isLowerHex c || isUpperHex c || c == ':' || c == '.'

/-- The specs that `ToggleIP` files in the range list: those that `net.ParseCIDR`
accepts with fewer ones than bits in the mask. -/
def isRangeSpec (s : String) : Bool :=
  match ParseCIDR s with
  | some (_, netAddress) =>
    decide ((IPMask.Size netAddress.Mask).1 ≠ (IPMask.Size netAddress.Mask).2)
  | none => false

/-- The specs that `ToggleIP` accepts: those that `net.ParseCIDR` or `net.ParseIP`
parses. -/
def validSpec (s : String) : Bool := (ParseCIDR s).isSome || (ParseIP s).isSome

/-- The configuration with every unparsable entry removed from both lists. -/
def Options.dropInvalid (opts : Options) : Options :=
  ⟨opts.AllowedIPs.filter validSpec, opts.BlockedIPs.filter validSpec, opts.BlockByDefault⟩

/-- The spec `e` covers the address `b`: `e` is a single address (a plain address or a
full-width CIDR spec) and `b` is that address, both taken in normalized form, or `e` is
a range and `b` lies in it. -/
def covers (e : String) (b : IP) : Bool :=
  match ParseCIDR e with
  | some (ip, netAddress) =>
    if (IPMask.Size netAddress.Mask).1 = (IPMask.Size netAddress.Mask).2 then
      IP.string ip == IP.string b
    else netAddress.Contains b
  | none =>
    match ParseIP e with
    | some a => IP.string (some a) == IP.string b
    | none => false

/-- A mutating call on a filter. -/
inductive Call where
  | AllowIP (ip : String)
  | BlockIP (ip : String)
  | ToggleIP (str : String) (allowed : Bool)
  | ToggleDefault (allowed : Bool)

/-- The filter after a mutating call. -/
def Call.run (f : IpFiltering) : Call → IpFiltering
  | Call.AllowIP ip => (ipfiltering.AllowIP f ip).1
  | Call.BlockIP ip => (ipfiltering.BlockIP f ip).1
  | Call.ToggleIP str allowed => (ipfiltering.ToggleIP f str allowed).1
  | Call.ToggleDefault allowed => ipfiltering.ToggleDefault f allowed

/-- The filter reached from `New opts` by a sequence of mutating calls. -/
def reach (opts : Options) (calls : List Call) : IpFiltering :=
  calls.foldl Call.run (New opts)

/-- The host part of the transport-level peer address of a request, empty when
`net.SplitHostPort` fails on it. -/
def peerHost (r : Request) : String :=
  match SplitHostPort r.RemoteAddr.toList with
  | none => ""
  | some (ip, _) => String.mk ip

/-- The key under which `ToggleIP` files a spec in the exact-address table: the
normalized form of the address of a CIDR spec whose mask has as many ones as bits, or
of a plain address; `none` for a range spec and for a spec that does not parse. -/
def exactKey (s : String) : Option String :=
  match ParseCIDR s with
  | some (ip, netAddress) =>
    if (IPMask.Size netAddress.Mask).1 = (IPMask.Size netAddress.Mask).2 then
      some (IP.string ip)
    else none
  | none =>
    match ParseIP s with
    | some ip => some (IP.string (some ip))
    | none => none

/-! ## Facts about the parsers -/

/-- A successful run of the IPv4 loop has read only digits and dots, which are address
characters. -/
theorem parseIPv4Fields_loop_chars (s : List Char) :
    ∀ (prev : Option Char) (val digLen : Nat) (fields : List Nat) (r : Nat × List Nat),
      parseIPv4Fields.loop s prev val digLen fields = some r →
      ∀ c ∈ s, addrChar c = true := by
  induction s with
  | nil => intro _ _ _ _ _ _ c hc; simp at hc
  | cons x rest ih =>
    intro prev val digLen fields r h c hc
    rw [parseIPv4Fields.loop] at h
    by_cases hd : isDigit x = true
    · rw [if_pos hd] at h
      split at h
      · exact absurd h (by simp)
      · split at h
        · exact absurd h (by simp)
        · rcases List.mem_cons.1 hc with rfl | hm
          · simp [addrChar, hd]
          · exact ih _ _ _ _ _ h c hm
    · rw [if_neg hd] at h
      by_cases hdot : x = '.'
      · rw [if_pos hdot] at h
        split at h
        · exact absurd h (by simp)
        · split at h
          · exact absurd h (by simp)
          · rcases List.mem_cons.1 hc with rfl | hm
            · simp [addrChar, hdot]
            · exact ih _ _ _ _ _ h c hm
      · rw [if_neg hdot] at h
        exact absurd h (by simp)

/-- A string accepted by `parseIPv4Fields` holds only address characters. -/
theorem parseIPv4Fields_chars (s : List Char) (fields : List Nat)
    (h : parseIPv4Fields s = some fields) : ∀ c ∈ s, addrChar c = true := by
  unfold parseIPv4Fields at h
  cases hl : parseIPv4Fields.loop s none 0 0 [] with
  | none => rw [hl] at h; exact absurd h (by simp)
  | some r => exact parseIPv4Fields_loop_chars s _ _ _ _ r hl

/-- The characters read by `scanHex` are address characters (hex digits); the others
are in the unread rest. -/
theorem scanHex_chars (s : List Char) :
    ∀ (off acc off1 acc1 : Nat) (rest : List Char),
      scanHex s off acc = some (off1, acc1, rest) →
      ∀ c ∈ s, addrChar c = true ∨ c ∈ rest := by
  induction s with
  | nil => intro _ _ _ _ _ _ c hc; simp at hc
  | cons x xs ih =>
    intro off acc off1 acc1 rest h c hc
    rw [scanHex] at h
    by_cases h1 : isDigit x = true
    · rw [if_pos h1] at h
      split at h
      · exact absurd h (by simp)
      · split at h
        · exact absurd h (by simp)
        · rcases List.mem_cons.1 hc with rfl | hm
          · left; simp [addrChar, h1]
          · exact ih _ _ _ _ _ h c hm
    · rw [if_neg h1] at h
      by_cases h2 : isLowerHex x = true
      · rw [if_pos h2] at h
        split at h
        · exact absurd h (by simp)
        · split at h
          · exact absurd h (by simp)
          · rcases List.mem_cons.1 hc with rfl | hm
            · left; simp [addrChar, h2]
            · exact ih _ _ _ _ _ h c hm
      · rw [if_neg h2] at h
        by_cases h3 : isUpperHex x = true
        · rw [if_pos h3] at h
          split at h
          · exact absurd h (by simp)
          · split at h
            · exact absurd h (by simp)
            · rcases List.mem_cons.1 hc with rfl | hm
              · left; simp [addrChar, h3]
              · exact ih _ _ _ _ _ h c hm
        · rw [if_neg h3] at h
          simp only [Option.some.injEq, Prod.mk.injEq] at h
          right
          rw [← h.2.2]
          exact hc

/-- The characters consumed by the IPv6 loop are address characters; the others are
in the unread rest. -/
theorem parseIPv6_loop_chars (k : Nat) :
    ∀ (s : List Char) (bytes : List Nat) (ellipsis : Option Nat)
      (rest : List Char) (bytes1 : List Nat) (ellipsis1 : Option Nat),
      parseIPv6.loop k s bytes ellipsis = some (rest, bytes1, ellipsis1) →
      ∀ c ∈ s, addrChar c = true ∨ c ∈ rest := by
  induction k with
  | zero =>
    intro s bytes ellipsis rest bytes1 ellipsis1 h c hc
    simp only [parseIPv6.loop, Option.some.injEq, Prod.mk.injEq] at h
    right; rw [← h.1]; exact hc
  | succ k ih =>
    intro s bytes ellipsis rest bytes1 ellipsis1 h c hc
    rw [parseIPv6.loop] at h
    cases hs : scanHex s 0 0 with
    | none => rw [hs] at h; exact absurd h (by simp)
    | some t =>
      obtain ⟨off, acc, rst⟩ := t
      rw [hs] at h
      simp only at h
      have hsc := scanHex_chars s 0 0 off acc rst hs c hc
      split at h
      · exact absurd h (by simp)
      · split at h
        · -- embedded IPv4
          split at h
          · exact absurd h (by simp)
          · split at h
            · exact absurd h (by simp)
            · cases h4 : parseIPv4Fields s with
              | none => rw [h4] at h; exact absurd h (by simp)
              | some fields => exact Or.inl (parseIPv4Fields_chars s fields h4 c hc)
        · rcases hsc with hok | hin
          · exact Or.inl hok
          · cases rst with
            | nil => simp at hin
            | cons c0 s1 =>
              simp only at h
              split at h
              · exact absurd h (by simp)
              · rename_i hc0
                have hc0 : c0 = ':' := by simpa using hc0
                cases s1 with
                | nil => exact absurd h (by simp)
                | cons c1 s2 =>
                  simp only at h
                  split at h
                  · rename_i hc1
                    split at h
                    · exact absurd h (by simp)
                    · cases s2 with
                      | nil =>
                        rcases List.mem_cons.1 hin with rfl | hm
                        · left; rw [hc0]; decide
                        · rcases List.mem_cons.1 hm with rfl | hm2
                          · left; rw [hc1]; decide
                          · simp at hm2
                      | cons c2 s3 =>
                        simp only at h
                        rcases List.mem_cons.1 hin with rfl | hm
                        · left; rw [hc0]; decide
                        · rcases List.mem_cons.1 hm with rfl | hm2
                          · left; rw [hc1]; decide
                          · exact ih _ _ _ _ _ _ h c hm2
                  · rcases List.mem_cons.1 hin with rfl | hm
                    · left; rw [hc0]; decide
                    · exact ih _ _ _ _ _ _ h c hm

/-- When the end of `parseIPv6` succeeds, the loop had read the whole string, and the
address carries the zone that was split off. -/
theorem parseIPv6_finish_some (zone : List Char)
    (r : Option (List Char × List Nat × Option Nat)) (a : Addr)
    (h : parseIPv6.finish zone r = some a) :
    a.zone = zone ∧ ∃ bytes ellipsis, r = some ([], bytes, ellipsis) := by
  cases r with
  | none => simp [parseIPv6.finish] at h
  | some t =>
    obtain ⟨rest, bytes, ell⟩ := t
    simp only [parseIPv6.finish] at h
    split at h
    · exact absurd h (by simp)
    · rename_i hrest
      have hrest : rest = [] := by simpa using hrest
      subst hrest
      refine ⟨?_, bytes, ell, rfl⟩
      split at h
      · split at h
        · exact absurd h (by simp)
        · simp only [Option.some.injEq] at h; rw [← h]
      · split at h
        · exact absurd h (by simp)
        · simp only [Option.some.injEq] at h; rw [← h]

/-- An accepted IPv6 text (zone apart) holds only address characters. -/
theorem parseIPv6_groups_some (s zone : List Char) (a : Addr)
    (h : parseIPv6.groups s zone = some a) :
    a.zone = zone ∧ ∀ c ∈ s, addrChar c = true := by
  unfold parseIPv6.groups at h
  by_cases hl : s.take 2 = [':', ':']
  · rw [if_pos hl] at h
    have hmem : ∀ c ∈ s, c ∈ [':', ':'] ∨ c ∈ s.drop 2 := by
      intro c hc
      have hcs : c ∈ List.take 2 s ++ List.drop 2 s := by
        rw [List.take_append_drop]; exact hc
      rw [hl] at hcs
      exact List.mem_append.1 hcs
    have hcolon : ∀ c ∈ [':', ':'], addrChar c = true := by
      intro c hc
      simp only [List.mem_cons, List.mem_singleton] at hc
      rcases hc with rfl | rfl | hc
      · decide
      · decide
      · simp at hc
    by_cases hd : s.drop 2 = []
    · rw [if_pos hd] at h
      simp only [Option.some.injEq] at h
      refine ⟨by rw [← h], ?_⟩
      intro c hc
      rcases hmem c hc with h1 | h1
      · exact hcolon c h1
      · rw [hd] at h1; simp at h1
    · rw [if_neg hd] at h
      obtain ⟨hz, bytes, ell, hloop⟩ := parseIPv6_finish_some zone _ a h
      refine ⟨hz, ?_⟩
      intro c hc
      rcases hmem c hc with h1 | h1
      · exact hcolon c h1
      · rcases parseIPv6_loop_chars 8 _ _ _ _ _ _ hloop c h1 with h3 | h3
        · exact h3
        · simp at h3
  · rw [if_neg hl] at h
    obtain ⟨hz, bytes, ell, hloop⟩ := parseIPv6_finish_some zone _ a h
    refine ⟨hz, ?_⟩
    intro c hc
    rcases parseIPv6_loop_chars 8 _ _ _ _ _ _ hloop c hc with h3 | h3
    · exact h3
    · simp at h3

/-- A string accepted by `parseIPv6` without zone holds only address characters. -/
theorem parseIPv6_chars (inp : List Char) (a : Addr) (h : parseIPv6 inp = some a)
    (hz : a.zone = []) : ∀ c ∈ inp, addrChar c = true := by
  unfold parseIPv6 at h
  split at h
  · exact absurd h (by simp)
  · rename_i hzone
    obtain ⟨hz2, hchars⟩ := parseIPv6_groups_some _ _ a h
    have hzone2 : (inp.dropWhile (fun c => c ≠ '%')).tail = [] := by rw [← hz2]; exact hz
    have hdrop : inp.dropWhile (fun c => c ≠ '%') = [] := by
      by_contra hne
      exact hzone ⟨hne, hzone2⟩
    have htake : inp.takeWhile (fun c => c ≠ '%') = inp := by
      have := List.takeWhile_append_dropWhile (fun c => decide (c ≠ '%')) inp
      rw [hdrop, List.append_nil] at this
      exact this
    rw [htake] at hchars
    exact hchars

/-- A result of `ParseAddr` comes from `parseIPv4` or from `parseIPv6` on the whole
string. -/
theorem ParseAddr_scan_cases (whole : List Char) (l : List Char) (a : Addr)
    (h : ParseAddr.scan whole l = some a) :
    parseIPv4 whole = some a ∨ parseIPv6 whole = some a := by
  induction l with
  | nil => simp [ParseAddr.scan] at h
  | cons x xs ih =>
    rw [ParseAddr.scan] at h
    split at h
    · exact Or.inl h
    · split at h
      · exact Or.inr h
      · split at h
        · exact absurd h (by simp)
        · exact ih h

/-- A string accepted by `ParseAddr` without zone holds only address characters. -/
theorem ParseAddr_chars (s : List Char) (a : Addr) (h : ParseAddr s = some a)
    (hz : a.zone = []) : ∀ c ∈ s, addrChar c = true := by
  rcases ParseAddr_scan_cases s s a h with h4 | h6
  · unfold parseIPv4 at h4
    cases hf : parseIPv4Fields s with
    | none => rw [hf] at h4; exact absurd h4 (by simp)
    | some fields => exact parseIPv4Fields_chars s fields hf
  · exact parseIPv6_chars s a h6 hz

/-- A string accepted by `ParseIP` holds only address characters. -/
theorem ParseIP_chars (s : String) (b : List Nat) (h : ParseIP s = some b) :
    ∀ c ∈ s.toList, addrChar c = true := by
  unfold ParseIP at h
  cases ha : ParseAddr s.toList with
  | none => rw [ha] at h; exact absurd h (by simp)
  | some a =>
    rw [ha] at h
    simp only at h
    split at h
    · exact absurd h (by simp)
    · rename_i hz
      exact ParseAddr_chars s.toList a ha (by simpa using hz)

/-- A string accepted by `ParseCIDR` has a `/`. -/
theorem ParseCIDR_has_slash (s : String) (r : IP × IPNet) (h : ParseCIDR s = some r) :
    '/' ∈ s.toList := by
  unfold ParseCIDR at h
  simp only at h
  split at h
  · exact absurd h (by simp)
  · rename_i hne
    by_contra hnot
    apply hne
    rw [List.dropWhile_eq_nil_iff]
    intro c hc
    simp only [ne_eq, decide_not, Bool.not_eq_true', decide_eq_false_iff_not]
    intro hceq
    exact hnot (hceq ▸ hc)

/-- A plain address is not a CIDR spec: what `ParseIP` accepts, `ParseCIDR` rejects. -/
theorem ParseCIDR_none_of_ParseIP (s : String) (b : List Nat) (h : ParseIP s = some b) :
    ParseCIDR s = none := by
  cases hc : ParseCIDR s with
  | none => rfl
  | some r =>
    have h1 := ParseCIDR_has_slash s r hc
    have h2 := ParseIP_chars s b h '/' h1
    exact absurd h2 (by decide)

/-! ## The decision function -/

/-- The loop of `NetAllowed` in closed form: it returns `true` at the first allow
match, and otherwise ends with `blocked` set when it was set before or some block
range matches. -/
theorem NetAllowed_loop_eq (ip : IP) (subs : List subnet) (blocked : Bool) :
    NetAllowed.loop ip subs blocked =
      if subs.any (fun sn => sn.ipnet.Contains ip && sn.allowed) then Sum.inl true
      else Sum.inr (blocked || subs.any (fun sn => sn.ipnet.Contains ip && !sn.allowed)) := by
  induction subs generalizing blocked with
  | nil => simp [NetAllowed.loop]
  | cons sn rest ih =>
    rw [NetAllowed.loop]
    by_cases hc : sn.ipnet.Contains ip = true
    · by_cases ha : sn.allowed = true
      · simp [hc, ha]
      · simp only [Bool.not_eq_true] at ha
        simp [hc, ha, ih]
    · simp only [Bool.not_eq_true] at hc
      simp [hc, ih]

/-- Claim C1 (refinement): for every rule store and every non-nil address `a`,
`NetAllowed`, which returns at the first matching allow range, gives the decision of
the full scan of the specification: the exact entry if there is one, else allow if
some matching range is allow, else block if some matching range is block, else the
default verdict. -/
theorem NetAllowed_refines_full_scan (f : IpFiltering) (a : List Nat) :
    NetAllowed f (some a) = fullScanDecision f a := by
  simp only [NetAllowed, fullScanDecision]
  cases hk : f.ips (IP.string (some a)) with
  | some v => rfl
  | none =>
    simp only [NetAllowed_loop_eq]
    by_cases h1 : f.subnets.any (fun sn => sn.ipnet.Contains (some a) && sn.allowed) = true
    · simp [h1]
    · simp only [Bool.not_eq_true] at h1
      simp only [h1]
      cases f.subnets.any (fun sn => sn.ipnet.Contains (some a) && !sn.allowed) <;> simp

/-! ## Facts about `ToggleIP` and `New` -/

/-- An exact entry decides `NetAllowed`. -/
theorem NetAllowed_of_exact (f : IpFiltering) (b : List Nat) (v : Bool)
    (he : f.ips (IP.string (some b)) = some v) : NetAllowed f (some b) = v := by
  simp only [NetAllowed, he]

/-- A plain address is written to the exact-address table. -/
theorem ToggleIP_of_ParseIP (f : IpFiltering) (s : String) (b : List Nat) (v : Bool)
    (h : ParseIP s = some b) :
    ToggleIP f s v =
      ({ f with ips := Function.update f.ips (IP.string (some b)) (some v) }, true) := by
  simp only [ToggleIP, ParseCIDR_none_of_ParseIP s b h, h]

/-- A CIDR spec whose mask has as many ones as bits is written to the exact-address
table. -/
theorem ToggleIP_of_full_width (f : IpFiltering) (s : String) (v : Bool) (ip : IP) (n : IPNet)
    (hc : ParseCIDR s = some (ip, n)) (hsz : (IPMask.Size n.Mask).1 = (IPMask.Size n.Mask).2) :
    ToggleIP f s v = ({ f with ips := Function.update f.ips (IP.string ip) (some v) }, true) := by
  simp only [ToggleIP, hc, if_pos hsz]

/-- A range spec leaves the exact-address table and the default verdict alone. -/
theorem ToggleIP_of_range (f : IpFiltering) (s : String) (v : Bool) (h : isRangeSpec s = true) :
    (ToggleIP f s v).1.ips = f.ips ∧ (ToggleIP f s v).1.defaultAllowed = f.defaultAllowed ∧
      (ToggleIP f s v).2 = true := by
  unfold isRangeSpec at h
  unfold ToggleIP
  cases hc : ParseCIDR s with
  | none => rw [hc] at h; exact absurd h (by simp)
  | some r =>
    obtain ⟨ip, n⟩ := r
    rw [hc] at h
    simp only [ne_eq, decide_not, Bool.not_eq_true', decide_eq_false_iff_not] at h
    simp only [if_neg h]
    split <;> simp

/-- Every call of `ToggleIP` leaves an exact entry as it was or sets it to the verdict
of the call. -/
theorem ToggleIP_ips_cases (f : IpFiltering) (s : String) (v : Bool) (k : String) :
    (ToggleIP f s v).1.ips k = f.ips k ∨ (ToggleIP f s v).1.ips k = some v := by
  unfold ToggleIP
  cases hc : ParseCIDR s with
  | some r =>
    obtain ⟨ip, n⟩ := r
    simp only
    split
    · by_cases hk : k = IP.string ip
      · right; subst hk; exact Function.update_same _ _ _
      · left; exact Function.update_noteq hk _ _
    · split <;> (left; rfl)
  | none =>
    cases hp : ParseIP s with
    | some b =>
      by_cases hk : k = IP.string (some b)
      · right; subst hk; exact Function.update_same _ _ _
      · left; exact Function.update_noteq hk _ _
    | none => left; rfl

/-- Allowing a list of specs keeps an exact allow entry. -/
theorem foldl_AllowIP_keeps_allow (l : List String) (k : String) :
    ∀ f : IpFiltering, f.ips k = some true →
      (l.foldl (fun g ip => (AllowIP g ip).1) f).ips k = some true := by
  induction l with
  | nil => intro f h; exact h
  | cons x xs ih =>
    intro f h
    rw [List.foldl_cons]
    apply ih
    rcases ToggleIP_ips_cases f x true k with h1 | h1
    · unfold AllowIP; rw [h1]; exact h
    · exact h1

/-- Allowing a list of specs that holds the address `s` leaves its exact entry at
allow. -/
theorem foldl_AllowIP_sets_allow (l : List String) (s : String) (b : List Nat)
    (hs : ParseIP s = some b) (hmem : s ∈ l) :
    ∀ f : IpFiltering,
      (l.foldl (fun g ip => (AllowIP g ip).1) f).ips (IP.string (some b)) = some true := by
  induction l with
  | nil => simp at hmem
  | cons x xs ih =>
    intro f
    rw [List.foldl_cons]
    rcases List.mem_cons.1 hmem with rfl | hm
    · apply foldl_AllowIP_keeps_allow
      unfold AllowIP
      rw [ToggleIP_of_ParseIP f s b true hs]
      simp
    · exact ih hm _

/-- The loop of `ToggleIP` and the entries stored under a spec: for the spec of the
call, the first of them gets the verdict. -/
theorem ToggleIP_loop_filter_same (r : String) (v : Bool) (subs : List subnet) :
    (ToggleIP.loop r v subs).2.filter (fun sn => decide (sn.str = r)) =
      (match subs.filter (fun sn => decide (sn.str = r)) with
       | [] => []
       | e :: es => { e with allowed := v } :: es) ∧
    ((ToggleIP.loop r v subs).1 = false ↔ subs.filter (fun sn => decide (sn.str = r)) = []) := by
  induction subs with
  | nil => simp [ToggleIP.loop]
  | cons sn rest ih =>
    rw [ToggleIP.loop]
    by_cases h : sn.str = r
    · simp [h]
    · simp only [if_neg h, List.filter_cons, decide_eq_true_eq, h, if_false]
      exact ih

/-- The loop of `ToggleIP` does not touch the entries stored under another spec. -/
theorem ToggleIP_loop_filter_other (r x : String) (v : Bool) (hx : x ≠ r) (subs : List subnet) :
    (ToggleIP.loop x v subs).2.filter (fun sn => decide (sn.str = r)) =
      subs.filter (fun sn => decide (sn.str = r)) := by
  induction subs with
  | nil => simp [ToggleIP.loop]
  | cons sn rest ih =>
    rw [ToggleIP.loop]
    by_cases h : sn.str = x
    · have hr : ¬ sn.str = r := fun h2 => hx (h ▸ h2)
      simp [h, hx]
    · simp only [if_neg h, List.filter_cons]
      rw [ih]

/-- A call of `ToggleIP` does not touch the range entries stored under another
spec. -/
theorem ToggleIP_filter_other (f : IpFiltering) (x r : String) (v : Bool) (hx : x ≠ r) :
    (ToggleIP f x v).1.subnets.filter (fun sn => decide (sn.str = r)) =
      f.subnets.filter (fun sn => decide (sn.str = r)) := by
  unfold ToggleIP
  cases hc : ParseCIDR x with
  | some p =>
    obtain ⟨ip, n⟩ := p
    simp only
    split
    · rfl
    · split
      · simp only [List.filter_append, ToggleIP_loop_filter_other r x v hx]
        simp [hx]
      · exact ToggleIP_loop_filter_other r x v hx _
  | none =>
    cases hp : ParseIP x with
    | some b => rfl
    | none => rfl

/-- A call of `ToggleIP` with a range spec gives the first entry stored under that
spec the verdict, or appends the entry when there is none. -/
theorem ToggleIP_filter_same (f : IpFiltering) (r : String) (v : Bool) (ip : IP) (n : IPNet)
    (hc : ParseCIDR r = some (ip, n)) (hsz : (IPMask.Size n.Mask).1 ≠ (IPMask.Size n.Mask).2) :
    (ToggleIP f r v).1.subnets.filter (fun sn => decide (sn.str = r)) =
      (match f.subnets.filter (fun sn => decide (sn.str = r)) with
       | [] => [⟨r, n, v⟩]
       | e :: es => { e with allowed := v } :: es) := by
  unfold ToggleIP
  simp only [hc, if_neg hsz]
  obtain ⟨h1, h2⟩ := ToggleIP_loop_filter_same r v f.subnets
  split
  · rename_i hfound
    have hnil := h2.1 hfound
    simp only [List.filter_append, h1, hnil]
    simp
  · rename_i hfound
    have hne : f.subnets.filter (fun sn => decide (sn.str = r)) ≠ [] := fun h => hfound (h2.2 h)
    simp only [h1]
    cases hfl : f.subnets.filter (fun sn => decide (sn.str = r)) with
    | nil => exact absurd hfl hne
    | cons e es => rfl

/-- Folding `ToggleIP` with one verdict over a list of specs keeps at most one
entry under the range spec `r`, and leaves exactly the entry with that verdict when
`r` is in the list. -/
theorem foldl_ToggleIP_filter (r : String) (v : Bool) (ip : IP) (n : IPNet)
    (hc : ParseCIDR r = some (ip, n)) (hsz : (IPMask.Size n.Mask).1 ≠ (IPMask.Size n.Mask).2)
    (l : List String) :
    ∀ f : IpFiltering,
      (f.subnets.filter (fun sn => decide (sn.str = r)) = [] ∨
        ∃ w, f.subnets.filter (fun sn => decide (sn.str = r)) = [⟨r, n, w⟩]) →
      ((l.foldl (fun g x => (ToggleIP g x v).1) f).subnets.filter (fun sn => decide (sn.str = r)) = [] ∨
        ∃ w, (l.foldl (fun g x => (ToggleIP g x v).1) f).subnets.filter
          (fun sn => decide (sn.str = r)) = [⟨r, n, w⟩]) ∧
      ((r ∈ l ∨ f.subnets.filter (fun sn => decide (sn.str = r)) = [⟨r, n, v⟩]) →
        (l.foldl (fun g x => (ToggleIP g x v).1) f).subnets.filter
          (fun sn => decide (sn.str = r)) = [⟨r, n, v⟩]) := by
  induction l with
  | nil =>
    intro f hinv
    refine ⟨hinv, ?_⟩
    intro h
    rcases h with h | h
    · simp at h
    · exact h
  | cons x xs ih =>
    intro f hinv
    rw [List.foldl_cons]
    by_cases hx : x = r
    · subst hx
      have hstep : (ToggleIP f x v).1.subnets.filter (fun sn => decide (sn.str = x)) =
          [⟨x, n, v⟩] := by
        rw [ToggleIP_filter_same f x v ip n hc hsz]
        rcases hinv with h | ⟨w, h⟩
        · rw [h]
        · rw [h]
      obtain ⟨i1, i2⟩ := ih (ToggleIP f x v).1 (Or.inr ⟨v, hstep⟩)
      exact ⟨i1, fun _ => i2 (Or.inr hstep)⟩
    · have hstep := ToggleIP_filter_other f x r v hx
      obtain ⟨i1, i2⟩ := ih (ToggleIP f x v).1 (by rw [hstep]; exact hinv)
      refine ⟨i1, ?_⟩
      intro h
      apply i2
      rcases h with h | h
      · rcases List.mem_cons.1 h with h' | h'
        · exact absurd h'.symm hx
        · exact Or.inl h'
      · right; rw [hstep]; exact h

/-- Splitting at the first `/` of a string whose first part has none. -/
theorem split_at_slash (t m : List Char) (h : ∀ c ∈ t, c ≠ '/') :
    (t ++ '/' :: m).takeWhile (fun c => c ≠ '/') = t ∧
    (t ++ '/' :: m).dropWhile (fun c => c ≠ '/') = '/' :: m := by
  induction t with
  | nil => simp
  | cons x xs ih =>
    have hx : decide (x ≠ '/') = true := decide_eq_true (h x (List.mem_cons_self _ _))
    have ih2 := ih (fun c hc => h c (List.mem_cons_of_mem _ hc))
    simp only [List.cons_append, List.takeWhile_cons, List.dropWhile_cons, hx, ih2.1, ih2.2,
      if_true, and_self]

/-- The full-width CIDR spec of an address parses to that address with a mask of
all ones. -/
theorem ParseCIDR_full_width (a : String) (A : Addr) (ha : ParseAddr a.toList = some A)
    (hz : A.zone = []) :
    ParseCIDR (a ++ (if A.is4 then "/32" else "/128")) =
      some (some A.as16,
        ⟨IP.Mask (some A.as16) (CIDRMask A.BitLen A.BitLen), CIDRMask A.BitLen A.BitLen⟩) := by
  have hno : ∀ c ∈ a.toList, c ≠ '/' := by
    intro c hc h
    have := ParseAddr_chars a.toList A ha hz c hc
    rw [h] at this
    exact absurd this (by decide)
  unfold ParseCIDR
  cases h4 : A.is4 with
  | true =>
    have hl : (a ++ "/32").toList = a.toList ++ '/' :: ['3', '2'] := by
      cases a; rfl
    obtain ⟨e1, e2⟩ := split_at_slash a.toList ['3', '2'] hno
    have hd : dtoi ['3', '2'] = (32, 2, true) := by decide
    simp only [if_true, hl, e1, e2, ha, hz, List.tail_cons, hd, Addr.BitLen, h4]
    simp
  | false =>
    have hl : (a ++ "/128").toList = a.toList ++ '/' :: ['1', '2', '8'] := by
      cases a; rfl
    obtain ⟨e1, e2⟩ := split_at_slash a.toList ['1', '2', '8'] hno
    have hd : dtoi ['1', '2', '8'] = (128, 3, true) := by decide
    simp only [Bool.false_eq_true, if_false, hl, e1, e2, ha, hz, List.tail_cons, hd, Addr.BitLen, h4]
    simp

/-- Blocking range specs leaves the exact-address table alone. -/
theorem foldl_BlockIP_range_ips (rs : List String) (hrs : ∀ r ∈ rs, isRangeSpec r = true) :
    ∀ f : IpFiltering, (rs.foldl (fun g r => (BlockIP g r).1) f).ips = f.ips := by
  induction rs with
  | nil => intro f; rfl
  | cons x xs ih =>
    intro f
    rw [List.foldl_cons, ih (fun r hr => hrs r (List.mem_cons_of_mem _ hr))]
    exact (ToggleIP_of_range f x false (hrs x (List.mem_cons_self _ _))).1

/-- A character that is not in the string has no index. -/
theorem IndexByteString_none (s : List Char) (c : Char) (h : c ∉ s) :
    IndexByteString s c = none := by
  induction s with
  | nil => rfl
  | cons x xs ih =>
    have hx : x ≠ c := fun e => h (e ▸ List.mem_cons_self _ _)
    have hxs : c ∉ xs := fun e => h (List.mem_cons_of_mem _ e)
    simp [IndexByteString, hx, ih hxs]

/-- Without a colon `net.SplitHostPort` fails (missing port). -/
theorem SplitHostPort_without_colon (s : List Char) (h : ':' ∉ s) : SplitHostPort s = none := by
  have h1 : LastIndexByteString s ':' = none := by
    unfold LastIndexByteString
    rw [IndexByteString_none s.reverse ':' (by simpa using h)]
    rfl
  simp only [SplitHostPort, h1]

/-- With the forwarded-for header trusted and present, a first token without colon
(every dotted IPv4 address) makes `getIp` return the empty string. -/
theorem getIp_forwarded_without_colon (m : ipFilteringMiddleware) (r : Request)
    (ht : m.options.TrustXFFHeader = true) (hx : r.HeaderGet XFFHeader ≠ "")
    (hc : ':' ∉ TrimSpace ((Split (r.HeaderGet XFFHeader).toList ',').headD [])) :
    getIp m r = "" := by
  unfold getIp
  simp only [ht, hx, ne_eq, not_false_eq_true, and_self, if_true]
  have hs : SplitHostPort
      (String.mk (TrimSpace ((Split (r.HeaderGet XFFHeader).toList ',').headD []))).toList = none :=
    SplitHostPort_without_colon _ hc
  rw [hs]

/-! ## Further facts used by the properties -/

/-- `NetAllowed` on a non-nil address in closed form. -/
theorem NetAllowed_some_eq (f : IpFiltering) (b : List Nat) :
    NetAllowed f (some b) =
      match f.ips (IP.string (some b)) with
      | some verdict => verdict
      | none =>
        if f.subnets.any (fun sn => sn.ipnet.Contains (some b) && sn.allowed) then true
        else if f.subnets.any (fun sn => sn.ipnet.Contains (some b) && !sn.allowed) then false
        else f.defaultAllowed := by
  simp only [NetAllowed]
  cases hk : f.ips (IP.string (some b)) with
  | some v => rfl
  | none =>
    simp only [NetAllowed_loop_eq]
    by_cases h1 : f.subnets.any (fun sn => sn.ipnet.Contains (some b) && sn.allowed) = true
    · simp [h1]
    · simp only [Bool.not_eq_true] at h1
      simp only [h1]
      cases f.subnets.any (fun sn => sn.ipnet.Contains (some b) && !sn.allowed) <;> simp

/-- `ToggleIP` returns the filter as it was on a spec that neither parser accepts. -/
theorem ToggleIP_of_invalid (f : IpFiltering) (s : String) (v : Bool)
    (h : validSpec s = false) : ToggleIP f s v = (f, false) := by
  unfold validSpec at h
  simp only [Bool.or_eq_false_iff] at h
  have h1 : ParseCIDR s = none := by
    cases hc : ParseCIDR s with
    | none => rfl
    | some p => rw [hc] at h; exact absurd h.1 (by simp)
  have h2 : ParseIP s = none := by
    cases hp : ParseIP s with
    | none => rfl
    | some p => rw [hp] at h; exact absurd h.2 (by simp)
  simp only [ToggleIP, h1, h2]

/-- Folding `ToggleIP` over a list of specs skips the unparsable ones. -/
theorem foldl_ToggleIP_filter_valid (v : Bool) (l : List String) :
    ∀ f : IpFiltering,
      (l.filter validSpec).foldl (fun g x => (ToggleIP g x v).1) f =
        l.foldl (fun g x => (ToggleIP g x v).1) f := by
  induction l with
  | nil => intro f; rfl
  | cons x xs ih =>
    intro f
    cases hx : validSpec x with
    | true =>
      rw [List.filter_cons_of_pos hx, List.foldl_cons, List.foldl_cons]
      exact ih _
    | false =>
      rw [List.filter_cons_of_neg (by simp [hx]), List.foldl_cons, ToggleIP_of_invalid f x v hx]
      exact ih f

/-- The field `opts` of a filter is carried along by `ToggleIP` and not read. -/
theorem ToggleIP_with_opts (f : IpFiltering) (o : Options) (s : String) (v : Bool) :
    (ToggleIP { f with opts := o } s v).1 = { (ToggleIP f s v).1 with opts := o } := by
  unfold ToggleIP
  cases hc : ParseCIDR s with
  | some p =>
    obtain ⟨ip, n⟩ := p
    simp only
    split
    · rfl
    · split <;> rfl
  | none =>
    cases hp : ParseIP s with
    | some b => rfl
    | none => rfl

/-- The field `opts` is carried along by a fold of `ToggleIP`. -/
theorem foldl_ToggleIP_with_opts (o : Options) (v : Bool) (l : List String) :
    ∀ f : IpFiltering,
      l.foldl (fun g x => (ToggleIP g x v).1) { f with opts := o } =
        { l.foldl (fun g x => (ToggleIP g x v).1) f with opts := o } := by
  induction l with
  | nil => intro f; rfl
  | cons x xs ih =>
    intro f
    rw [List.foldl_cons, List.foldl_cons, ToggleIP_with_opts, ih]

/-- The filter built from the configuration without its unparsable entries is the
filter built from the configuration, up to the stored configuration. -/
theorem New_dropInvalid (opts : Options) :
    New opts.dropInvalid = { New opts with opts := opts.dropInvalid } := by
  unfold New Options.dropInvalid AllowIP BlockIP
  simp only
  rw [foldl_ToggleIP_filter_valid true, foldl_ToggleIP_filter_valid false]
  rw [← foldl_ToggleIP_with_opts, ← foldl_ToggleIP_with_opts]

/-- The loop of `ToggleIP` finds nothing and changes nothing when no entry is stored
under the spec. -/
theorem ToggleIP_loop_not_found (s : String) (v : Bool) (subs : List subnet)
    (h : ∀ sn ∈ subs, sn.str ≠ s) : ToggleIP.loop s v subs = (false, subs) := by
  induction subs with
  | nil => rfl
  | cons sn rest ih =>
    have h1 : sn.str ≠ s := h sn (List.mem_cons_self _ _)
    have h2 := ih (fun x hx => h x (List.mem_cons_of_mem _ hx))
    rw [ToggleIP.loop, if_neg h1, h2]

/-- The loop of `ToggleIP` gives the verdict to the first entry stored under the spec
and leaves the rest of the list as it is. -/
theorem ToggleIP_loop_found (s : String) (v : Bool) (pre post : List subnet) (e : subnet)
    (he : e.str = s) (h : ∀ sn ∈ pre, sn.str ≠ s) :
    ToggleIP.loop s v (pre ++ e :: post) = (true, pre ++ { e with allowed := v } :: post) := by
  induction pre with
  | nil => simp [ToggleIP.loop, he]
  | cons sn rest ih =>
    have h1 : sn.str ≠ s := h sn (List.mem_cons_self _ _)
    have h2 := ih (fun x hx => h x (List.mem_cons_of_mem _ hx))
    rw [List.cons_append, ToggleIP.loop, if_neg h1, h2]
    rfl

/-- The loop of `ToggleIP` keeps the specs and the networks of the entries, in order. -/
theorem ToggleIP_loop_keeps (s : String) (v : Bool) (subs : List subnet) :
    (ToggleIP.loop s v subs).2.map (fun sn => sn.str) = subs.map (fun sn => sn.str) ∧
    (ToggleIP.loop s v subs).2.map (fun sn => sn.ipnet) = subs.map (fun sn => sn.ipnet) ∧
    ((ToggleIP.loop s v subs).1 = true ↔ ∃ sn ∈ subs, sn.str = s) := by
  induction subs with
  | nil => simp [ToggleIP.loop]
  | cons sn rest ih =>
    rw [ToggleIP.loop]
    by_cases h : sn.str = s
    · simp [h]
    · rw [if_neg h]
      simp only [List.map_cons, ih.1, ih.2.1, ih.2.2, List.mem_cons, exists_eq_or_imp, h,
        false_or, true_and]

/-- The mask built by `net.CIDRMask` has the size it was built with. -/
theorem Size_CIDRMask (ones bits : Nat) (hb : bits = 32 ∨ bits = 128) (ho : ones ≤ bits) :
    IPMask.Size (CIDRMask ones bits) = (ones, bits) := by
  rcases hb with rfl | rfl
  · have h : ∀ k, k ≤ 32 → IPMask.Size (CIDRMask k 32) = (k, 32) := by decide
    exact h ones ho
  · have h : ∀ k, k ≤ 128 → IPMask.Size (CIDRMask k 128) = (k, 128) := by decide
    exact h ones ho

/-- The mask of a parsed CIDR spec has at most as many ones as bits. -/
theorem ParseCIDR_mask_size (s : String) (ip : IP) (n : IPNet)
    (h : ParseCIDR s = some (ip, n)) :
    (IPMask.Size n.Mask).1 ≤ (IPMask.Size n.Mask).2 := by
  unfold ParseCIDR at h
  simp only at h
  split at h
  · exact absurd h (by simp)
  · cases ha : ParseAddr (s.toList.takeWhile (fun c => c ≠ '/')) with
    | none => rw [ha] at h; exact absurd h (by simp)
    | some a =>
      rw [ha] at h
      simp only at h
      split at h
      · exact absurd h (by simp)
      · split at h
        · exact absurd h (by simp)
        · rename_i hcond
          simp only [not_or, gt_iff_lt, not_lt] at hcond
          simp only [Option.some.injEq, Prod.mk.injEq] at h
          have hbits : a.BitLen = 32 ∨ a.BitLen = 128 := by
            unfold Addr.BitLen; cases a.is4 <;> simp
          rw [← h.2]
          simp only
          rw [Size_CIDRMask _ a.BitLen hbits hcond.2.2]
          exact hcond.2.2

/-- The range-list invariant: every entry has fewer ones than bits in its mask and
holds the network that `net.ParseCIDR` gives for its spec, and no spec occurs twice. -/
theorem rangeInv_ToggleIP (f : IpFiltering) (s : String) (v : Bool)
    (h1 : ∀ sn ∈ f.subnets, (IPMask.Size sn.ipnet.Mask).1 < (IPMask.Size sn.ipnet.Mask).2 ∧
      ∃ ip, ParseCIDR sn.str = some (ip, sn.ipnet))
    (h2 : (f.subnets.map (fun sn => sn.str)).Nodup) :
    (∀ sn ∈ (ToggleIP f s v).1.subnets,
      (IPMask.Size sn.ipnet.Mask).1 < (IPMask.Size sn.ipnet.Mask).2 ∧
      ∃ ip, ParseCIDR sn.str = some (ip, sn.ipnet)) ∧
    ((ToggleIP f s v).1.subnets.map (fun sn => sn.str)).Nodup := by
  unfold ToggleIP
  cases hc : ParseCIDR s with
  | some p =>
    obtain ⟨ip, n⟩ := p
    simp only
    split
    · exact ⟨h1, h2⟩
    · rename_i hsz
      obtain ⟨k1, k2, k3⟩ := ToggleIP_loop_keeps s v f.subnets
      have hentries : ∀ sn ∈ (ToggleIP.loop s v f.subnets).2,
          (IPMask.Size sn.ipnet.Mask).1 < (IPMask.Size sn.ipnet.Mask).2 ∧
          ∃ ip, ParseCIDR sn.str = some (ip, sn.ipnet) := by
        intro sn hsn
        have hpair : (sn.str, sn.ipnet) ∈
            (ToggleIP.loop s v f.subnets).2.map (fun sn => (sn.str, sn.ipnet)) :=
          List.mem_map.2 ⟨sn, hsn, rfl⟩
        have hmaps : (ToggleIP.loop s v f.subnets).2.map (fun sn => (sn.str, sn.ipnet)) =
            f.subnets.map (fun sn => (sn.str, sn.ipnet)) := by
          have e1 : ∀ l : List subnet, l.map (fun sn => (sn.str, sn.ipnet)) =
              List.zip (l.map (fun sn => sn.str)) (l.map (fun sn => sn.ipnet)) := by
            intro l
            induction l with
            | nil => rfl
            | cons x xs ih => simp [ih]
          rw [e1, e1, k1, k2]
        rw [hmaps] at hpair
        obtain ⟨sn0, hsn0, heq⟩ := List.mem_map.1 hpair
        simp only [Prod.mk.injEq] at heq
        have := h1 sn0 hsn0
        rw [heq.1, heq.2] at this
        exact this
      split
      · rename_i hfound
        have hno : ¬ ∃ sn ∈ f.subnets, sn.str = s := by
          intro hex
          have := k3.2 hex
          rw [hfound] at this
          exact absurd this (by simp)
        constructor
        · intro sn hsn
          rcases List.mem_append.1 hsn with hm | hm
          · exact hentries sn hm
          · simp only [List.mem_singleton] at hm
            subst hm
            refine ⟨?_, ip, hc⟩
            exact lt_of_le_of_ne (ParseCIDR_mask_size s ip n hc) hsz
        · rw [List.map_append, k1]
          simp only [List.map_cons, List.map_nil]
          rw [List.nodup_append]
          refine ⟨h2, List.nodup_singleton _, ?_⟩
          intro a ha hb
          simp only [List.mem_singleton] at hb
          subst hb
          obtain ⟨sn, hsn, hs⟩ := List.mem_map.1 ha
          exact hno ⟨sn, hsn, hs⟩
      · exact ⟨hentries, by rw [k1]; exact h2⟩
  | none =>
    cases hp : ParseIP s with
    | some b => exact ⟨h1, h2⟩
    | none => exact ⟨h1, h2⟩

/-- The range-list invariant along a fold of `ToggleIP` with one verdict. -/
theorem rangeInv_foldl_ToggleIP (v : Bool) (l : List String) :
    ∀ f : IpFiltering,
      (∀ sn ∈ f.subnets, (IPMask.Size sn.ipnet.Mask).1 < (IPMask.Size sn.ipnet.Mask).2 ∧
        ∃ ip, ParseCIDR sn.str = some (ip, sn.ipnet)) →
      (f.subnets.map (fun sn => sn.str)).Nodup →
      (∀ sn ∈ (l.foldl (fun g x => (ToggleIP g x v).1) f).subnets,
        (IPMask.Size sn.ipnet.Mask).1 < (IPMask.Size sn.ipnet.Mask).2 ∧
        ∃ ip, ParseCIDR sn.str = some (ip, sn.ipnet)) ∧
      ((l.foldl (fun g x => (ToggleIP g x v).1) f).subnets.map (fun sn => sn.str)).Nodup := by
  induction l with
  | nil => intro f h1 h2; exact ⟨h1, h2⟩
  | cons x xs ih =>
    intro f h1 h2
    rw [List.foldl_cons]
    obtain ⟨i1, i2⟩ := rangeInv_ToggleIP f x v h1 h2
    exact ih _ i1 i2

/-- The loop of `ToggleIP` with verdict `v` keeps every match whose verdict passes a
test that `v` passes, and creates no match whose verdict passes a test that `v`
fails. -/
theorem ToggleIP_loop_any (s : String) (v : Bool) (q : IPNet → Bool) (p : Bool → Bool)
    (subs : List subnet) :
    (p v = true → subs.any (fun sn => q sn.ipnet && p sn.allowed) = true →
      (ToggleIP.loop s v subs).2.any (fun sn => q sn.ipnet && p sn.allowed) = true) ∧
    (p v = false → (ToggleIP.loop s v subs).2.any (fun sn => q sn.ipnet && p sn.allowed) = true →
      subs.any (fun sn => q sn.ipnet && p sn.allowed) = true) := by
  induction subs with
  | nil => simp [ToggleIP.loop]
  | cons sn rest ih =>
    rw [ToggleIP.loop]
    by_cases h : sn.str = s
    · rw [if_pos h]
      constructor
      · intro hp hany
        simp only [List.any_cons, Bool.or_eq_true, Bool.and_eq_true] at hany ⊢
        rcases hany with ⟨hq, _⟩ | hr
        · exact Or.inl ⟨hq, hp⟩
        · exact Or.inr hr
      · intro hp hany
        simp only [List.any_cons, Bool.or_eq_true, Bool.and_eq_true] at hany ⊢
        rcases hany with ⟨_, hpv⟩ | hr
        · rw [hp] at hpv; exact absurd hpv (by simp)
        · exact Or.inr hr
    · rw [if_neg h]
      constructor
      · intro hp hany
        simp only [List.any_cons, Bool.or_eq_true] at hany ⊢
        rcases hany with h1 | hr
        · exact Or.inl h1
        · exact Or.inr (ih.1 hp hr)
      · intro hp hany
        simp only [List.any_cons, Bool.or_eq_true] at hany ⊢
        rcases hany with h1 | hr
        · exact Or.inl h1
        · exact Or.inr (ih.2 hp hr)

/-- The same for the range list after a call of `ToggleIP`. -/
theorem ToggleIP_subnets_any (f : IpFiltering) (s : String) (v : Bool) (q : IPNet → Bool)
    (p : Bool → Bool) :
    (p v = true → f.subnets.any (fun sn => q sn.ipnet && p sn.allowed) = true →
      (ToggleIP f s v).1.subnets.any (fun sn => q sn.ipnet && p sn.allowed) = true) ∧
    (p v = false → (ToggleIP f s v).1.subnets.any (fun sn => q sn.ipnet && p sn.allowed) = true →
      f.subnets.any (fun sn => q sn.ipnet && p sn.allowed) = true) := by
  unfold ToggleIP
  cases hc : ParseCIDR s with
  | some pr =>
    obtain ⟨ip, n⟩ := pr
    simp only
    split
    · exact ⟨fun _ h => h, fun _ h => h⟩
    · obtain ⟨l1, l2⟩ := ToggleIP_loop_any s v q p f.subnets
      split
      · constructor
        · intro hp hany
          simp only [List.any_append, Bool.or_eq_true]
          exact Or.inl (l1 hp hany)
        · intro hp hany
          simp only [List.any_append, Bool.or_eq_true, List.any_cons, List.any_nil, Bool.or_false,
            Bool.and_eq_true] at hany
          rcases hany with h1 | ⟨_, h2⟩
          · exact l2 hp h1
          · rw [hp] at h2; exact absurd h2 (by simp)
      · exact ⟨l1, l2⟩
  | none =>
    cases hp : ParseIP s with
    | some b => exact ⟨fun _ h => h, fun _ h => h⟩
    | none => exact ⟨fun _ h => h, fun _ h => h⟩

/-- A call of `ToggleIP` leaves the default verdict alone. -/
theorem ToggleIP_defaultAllowed (f : IpFiltering) (s : String) (v : Bool) :
    (ToggleIP f s v).1.defaultAllowed = f.defaultAllowed := by
  unfold ToggleIP
  cases hc : ParseCIDR s with
  | some pr =>
    obtain ⟨ip, n⟩ := pr
    simp only
    split
    · rfl
    · split <;> rfl
  | none =>
    cases hp : ParseIP s with
    | some b => rfl
    | none => rfl

/-- A call of `ToggleIP` with verdict `v` moves the decision on an address only
towards `v`. -/
theorem NetAllowed_ToggleIP_mono (f : IpFiltering) (s : String) (v : Bool) (b : List Nat)
    (h : NetAllowed f (some b) = v) : NetAllowed (ToggleIP f s v).1 (some b) = v := by
  rw [NetAllowed_some_eq] at h ⊢
  rw [ToggleIP_defaultAllowed]
  rcases ToggleIP_ips_cases f s v (IP.string (some b)) with hk | hk
  · rw [hk]
    cases he : f.ips (IP.string (some b)) with
    | some w => rw [he] at h; exact h
    | none =>
      rw [he] at h
      simp only at h ⊢
      cases v with
      | true =>
        have m1 := (ToggleIP_subnets_any f s true (fun n => n.Contains (some b)) id).1 rfl
        have m2 := (ToggleIP_subnets_any f s true (fun n => n.Contains (some b)) not).2 rfl
        simp only [id] at m1
        by_cases hA : f.subnets.any (fun sn => sn.ipnet.Contains (some b) && sn.allowed) = true
        · rw [if_pos (m1 hA)]
        · rw [if_neg hA] at h
          by_cases hB : f.subnets.any (fun sn => sn.ipnet.Contains (some b) && !sn.allowed) = true
          · rw [if_pos hB] at h; exact absurd h (by simp)
          · rw [if_neg hB] at h
            by_cases hA2 : (ToggleIP f s true).1.subnets.any
                (fun sn => sn.ipnet.Contains (some b) && sn.allowed) = true
            · rw [if_pos hA2]
            · rw [if_neg hA2, if_neg (fun hB2 => hB (m2 hB2))]
              exact h
      | false =>
        have m1 := (ToggleIP_subnets_any f s false (fun n => n.Contains (some b)) not).1 rfl
        have m2 := (ToggleIP_subnets_any f s false (fun n => n.Contains (some b)) id).2 rfl
        simp only [id] at m2
        by_cases hA : f.subnets.any (fun sn => sn.ipnet.Contains (some b) && sn.allowed) = true
        · rw [if_pos hA] at h; exact absurd h (by simp)
        · rw [if_neg hA] at h
          rw [if_neg (fun hA2 => hA (m2 hA2))]
          by_cases hB : f.subnets.any (fun sn => sn.ipnet.Contains (some b) && !sn.allowed) = true
          · rw [if_pos (m1 hB)]
          · rw [if_neg hB] at h
            by_cases hB2 : (ToggleIP f s false).1.subnets.any
                (fun sn => sn.ipnet.Contains (some b) && !sn.allowed) = true
            · rw [if_pos hB2]
            · rw [if_neg hB2]; exact h
  · rw [hk]

/-- The 4-byte form and the 16-byte form of an IPv4 address have the same normalized
form. -/
theorem IP_string_v4_forms (x0 x1 x2 x3 : Nat) :
    IP.string (some [x0, x1, x2, x3]) = IP.string (some (v4InV6Lead ++ [x0, x1, x2, x3])) := by
  have h4 : IP.To4 (some [x0, x1, x2, x3]) = some [x0, x1, x2, x3] := by
    simp [IP.To4, IP.len]
  have h16 : IP.To4 (some (v4InV6Lead ++ [x0, x1, x2, x3])) = some [x0, x1, x2, x3] := by
    simp [IP.To4, IP.len, IP.bytes, v4InV6Lead, isZeros]
  unfold IP.string
  rw [h4, h16]
  simp [IP.len, v4InV6Lead]

/-- A network contains the 4-byte form of an IPv4 address exactly when it contains the
16-byte form. -/
theorem Contains_v4_forms (n : IPNet) (x0 x1 x2 x3 : Nat) :
    n.Contains (some [x0, x1, x2, x3]) = n.Contains (some (v4InV6Lead ++ [x0, x1, x2, x3])) := by
  have h4 : IP.To4 (some [x0, x1, x2, x3]) = some [x0, x1, x2, x3] := by
    simp [IP.To4, IP.len]
  have h16 : IP.To4 (some (v4InV6Lead ++ [x0, x1, x2, x3])) = some [x0, x1, x2, x3] := by
    simp [IP.To4, IP.len, IP.bytes, v4InV6Lead, isZeros]
  unfold IPNet.Contains
  rw [h4, h16]
  simp

/-- The loop of `NetAllowed` depends on the address through `Contains` only. -/
theorem NetAllowed_loop_congr (ip1 ip2 : IP) (subs : List subnet)
    (h : ∀ n : IPNet, n.Contains ip1 = n.Contains ip2) :
    ∀ blocked, NetAllowed.loop ip1 subs blocked = NetAllowed.loop ip2 subs blocked := by
  induction subs with
  | nil => intro blocked; rfl
  | cons sn rest ih =>
    intro blocked
    rw [NetAllowed.loop, NetAllowed.loop, h sn.ipnet, ih, ih]

/-- `NetAllowed` gives the same answer on the two forms of an IPv4 address. -/
theorem NetAllowed_v4_forms (f : IpFiltering) (x0 x1 x2 x3 : Nat) :
    NetAllowed f (some [x0, x1, x2, x3]) =
      NetAllowed f (some (v4InV6Lead ++ [x0, x1, x2, x3])) := by
  simp only [NetAllowed, IP_string_v4_forms,
    NetAllowed_loop_congr _ _ f.subnets (fun n => Contains_v4_forms n x0 x1 x2 x3)]

/-- A call of `ToggleIP` writes the verdict under the exact key of the spec, if it has
one, and leaves every other entry of the exact-address table as it was. -/
theorem ToggleIP_ips_exactKey (f : IpFiltering) (s : String) (v : Bool) (k : String) :
    (ToggleIP f s v).1.ips k = if exactKey s = some k then some v else f.ips k := by
  unfold ToggleIP exactKey
  cases hc : ParseCIDR s with
  | some p =>
    obtain ⟨ip, n⟩ := p
    simp only
    by_cases hsz : (IPMask.Size n.Mask).1 = (IPMask.Size n.Mask).2
    · simp only [if_pos hsz, Option.some.injEq]
      by_cases hk : IP.string ip = k
      · subst hk; simp
      · rw [if_neg hk, Function.update_noteq (fun h => hk h.symm)]
    · simp only [if_neg hsz]
      split <;> simp
  | none =>
    cases hp : ParseIP s with
    | some b =>
      simp only [Option.some.injEq]
      by_cases hk : IP.string (some b) = k
      · subst hk; simp
      · rw [if_neg hk, Function.update_noteq (fun h => hk h.symm)]
    | none => simp

/-- The exact-address table after a fold of `ToggleIP` with one verdict: the keys of
the specs of the list hold the verdict, the others what they held. -/
theorem foldl_ToggleIP_ips (v : Bool) (k : String) (l : List String) :
    ∀ f : IpFiltering,
      (l.foldl (fun g x => (ToggleIP g x v).1) f).ips k =
        if l.any (fun x => exactKey x == some k) then some v else f.ips k := by
  induction l with
  | nil => intro f; simp
  | cons x xs ih =>
    intro f
    rw [List.foldl_cons, ih, ToggleIP_ips_exactKey]
    by_cases hx : exactKey x = some k
    · simp [hx]
    · simp [hx]

/-- A fold of `ToggleIP` over specs other than `r` does not touch the range entries
stored under `r`. -/
theorem foldl_ToggleIP_filter_not_mem (r : String) (v : Bool) (l : List String) (hr : r ∉ l) :
    ∀ f : IpFiltering,
      (l.foldl (fun g x => (ToggleIP g x v).1) f).subnets.filter (fun sn => decide (sn.str = r)) =
        f.subnets.filter (fun sn => decide (sn.str = r)) := by
  induction l with
  | nil => intro f; rfl
  | cons x xs ih =>
    intro f
    have hx : x ≠ r := fun h => hr (h ▸ List.mem_cons_self _ _)
    have hxs : r ∉ xs := fun h => hr (List.mem_cons_of_mem _ h)
    rw [List.foldl_cons, ih hxs, ToggleIP_filter_other f x r v hx]

/-- The exact-address table that `New` builds. -/
theorem New_ips (opts : Options) (k : String) :
    (New opts).ips k =
      if opts.AllowedIPs.any (fun x => exactKey x == some k) then some true
      else if opts.BlockedIPs.any (fun x => exactKey x == some k) then some false
      else none := by
  unfold New AllowIP BlockIP
  rw [foldl_ToggleIP_ips true k, foldl_ToggleIP_ips false k]

/-- The range entries that `New` stores under a range spec. -/
theorem New_subnets_filter (opts : Options) (r : String) (ip : IP) (n : IPNet)
    (hr : ParseCIDR r = some (ip, n)) (hsz : (IPMask.Size n.Mask).1 ≠ (IPMask.Size n.Mask).2) :
    (New opts).subnets.filter (fun sn => decide (sn.str = r)) =
      if r ∈ opts.AllowedIPs then [⟨r, n, true⟩]
      else if r ∈ opts.BlockedIPs then [⟨r, n, false⟩]
      else [] := by
  unfold New AllowIP BlockIP
  have hblock := foldl_ToggleIP_filter r false ip n hr hsz opts.BlockedIPs
    ⟨opts, !opts.BlockByDefault, fun _ => none, fun _ => none, []⟩ (Or.inl rfl)
  by_cases hA : r ∈ opts.AllowedIPs
  · rw [if_pos hA]
    exact (foldl_ToggleIP_filter r true ip n hr hsz opts.AllowedIPs _ hblock.1).2 (Or.inl hA)
  · rw [if_neg hA, foldl_ToggleIP_filter_not_mem r true opts.AllowedIPs hA]
    by_cases hB : r ∈ opts.BlockedIPs
    · rw [if_pos hB]
      exact hblock.2 (Or.inl hB)
    · rw [if_neg hB, foldl_ToggleIP_filter_not_mem r false opts.BlockedIPs hB]
      rfl

/-- The exact key of a plain address. -/
theorem exactKey_of_ParseIP (s : String) (b : List Nat) (h : ParseIP s = some b) :
    exactKey s = some (IP.string (some b)) := by
  simp only [exactKey, ParseCIDR_none_of_ParseIP s b h, h]

/-! ## Properties of the filter -/

/-- Claim C2 (exact-match precedence): when the address `a` parses and its normalized
form has an entry in the exact-address table, `Allowed a` (and `NetAllowed` on the
parsed address) is the verdict of that entry, whatever the range list and the default
verdict are. -/
theorem exact_match_precedence (f : IpFiltering) (a : String) (b : List Nat) (v : Bool)
    (ha : ParseIP a = some b) (he : f.ips (IP.string (some b)) = some v) :
    Allowed f a = v ∧ NetAllowed f (some b) = v := by
  refine ⟨?_, NetAllowed_of_exact f b v he⟩
  unfold Allowed
  rw [ha]
  exact NetAllowed_of_exact f b v he

/-- Claim C2 at a store with a block entry for 10.0.0.1, an allow range and a block
range around it, and default allow. -/
theorem exact_match_precedence_witness :
    ParseIP "10.0.0.1" = some [0, 0, 0, 0, 0, 0, 0, 0, 0, 0, 255, 255, 10, 0, 0, 1] ∧
    (New ⟨["10.0.0.0/8"], ["10.0.0.1", "10.0.0.0/24"], false⟩).ips
      (IP.string (some [0, 0, 0, 0, 0, 0, 0, 0, 0, 0, 255, 255, 10, 0, 0, 1])) = some false ∧
    Allowed (New ⟨["10.0.0.0/8"], ["10.0.0.1", "10.0.0.0/24"], false⟩) "10.0.0.1" = false :=
  ⟨by decide, by decide,
    (exact_match_precedence (New ⟨["10.0.0.0/8"], ["10.0.0.1", "10.0.0.0/24"], false⟩) "10.0.0.1"
      [0, 0, 0, 0, 0, 0, 0, 0, 0, 0, 255, 255, 10, 0, 0, 1] false (by decide) (by decide)).1⟩

/-- Claim C3 (allow over block within ranges): when the address `a` parses, has no
exact entry, and the range list holds an entry marked allow and an entry marked block
that both contain it, `Allowed a` is true; the positions of the two entries in the
list and the other entries do not matter. -/
theorem allow_over_block_within_ranges (f : IpFiltering) (a : String) (b : List Nat)
    (sa sb : subnet) (ha : ParseIP a = some b) (he : f.ips (IP.string (some b)) = none)
    (hsa : sa ∈ f.subnets) (hsa1 : sa.allowed = true) (hsa2 : sa.ipnet.Contains (some b) = true)
    (hsb : sb ∈ f.subnets) (hsb1 : sb.allowed = false) (hsb2 : sb.ipnet.Contains (some b) = true) :
    Allowed f a = true := by
  unfold Allowed
  rw [ha]
  simp only [NetAllowed, he, NetAllowed_loop_eq]
  have hany : f.subnets.any (fun sn => sn.ipnet.Contains (some b) && sn.allowed) = true :=
    List.any_eq_true.2 ⟨sa, hsa, by simp [hsa1, hsa2]⟩
  simp [hany]

/-- Claim C3 at a store whose range list holds two block ranges followed by an allow
range, all containing 10.0.0.1, with default block. -/
theorem allow_over_block_within_ranges_witness :
    (New ⟨["10.0.0.0/16"], ["10.0.0.0/8", "10.0.0.0/24"], true⟩).subnets =
      [⟨"10.0.0.0/8", ⟨some [10, 0, 0, 0], some [255, 0, 0, 0]⟩, false⟩,
       ⟨"10.0.0.0/24", ⟨some [10, 0, 0, 0], some [255, 255, 255, 0]⟩, false⟩,
       ⟨"10.0.0.0/16", ⟨some [10, 0, 0, 0], some [255, 255, 0, 0]⟩, true⟩] ∧
    Allowed (New ⟨["10.0.0.0/16"], ["10.0.0.0/8", "10.0.0.0/24"], true⟩) "10.0.0.1" = true :=
  ⟨by decide,
    allow_over_block_within_ranges (New ⟨["10.0.0.0/16"], ["10.0.0.0/8", "10.0.0.0/24"], true⟩)
      "10.0.0.1" [0, 0, 0, 0, 0, 0, 0, 0, 0, 0, 255, 255, 10, 0, 0, 1]
      ⟨"10.0.0.0/16", ⟨some [10, 0, 0, 0], some [255, 255, 0, 0]⟩, true⟩
      ⟨"10.0.0.0/8", ⟨some [10, 0, 0, 0], some [255, 0, 0, 0]⟩, false⟩
      (by decide) (by decide) (by decide) (by decide) (by decide) (by decide) (by decide)
      (by decide)⟩

/-- Claim C4 (fail closed on a bad query): for every rule store and every string that
does not parse as an address, `Allowed` is false; so it is for the empty string, and
`NetAllowed` is false on the nil address. -/
theorem fail_closed_on_bad_query (f : IpFiltering) (s : String) (h : ParseIP s = none) :
    Allowed f s = false ∧ Allowed f "" = false ∧ NetAllowed f none = false := by
  refine ⟨?_, ?_, rfl⟩
  · unfold Allowed; rw [h]; rfl
  · have h0 : ParseIP "" = none := by decide
    unfold Allowed; rw [h0]; rfl

/-- Claim C4 at a store that allows by default and allows every IPv4 address by a
range. -/
theorem fail_closed_on_bad_query_witness :
    ParseIP "not-an-ip" = none ∧
    Allowed (New ⟨["0.0.0.0/0"], [], false⟩) "not-an-ip" = false :=
  ⟨by decide, (fail_closed_on_bad_query (New ⟨["0.0.0.0/0"], [], false⟩) "not-an-ip" (by decide)).1⟩

/-- Claim C5 (header extraction), evaluated on the code: with the forwarded-for header
trusted and holding `198.51.100.7, 10.0.0.1`, the first token trimmed is
`198.51.100.7`, yet `getIp` returns the empty string, `net.SplitHostPort` failing on
an address without port; the request is refused although the filter allows every
address. -/
theorem getIp_forwarded_bare_address :
    TrimSpace ((Split "198.51.100.7, 10.0.0.1".toList ',').headD []) = "198.51.100.7".toList ∧
    getIp (Middleware ⟨⟨[], [], false⟩, true⟩)
      ⟨"192.0.2.1:4711", fun k => if k = XFFHeader then ["198.51.100.7, 10.0.0.1"] else []⟩ = "" ∧
    Allowed (Middleware ⟨⟨[], [], false⟩, true⟩).IpFiltering
      (getIp (Middleware ⟨⟨[], [], false⟩, true⟩)
        ⟨"192.0.2.1:4711", fun k => if k = XFFHeader then ["198.51.100.7, 10.0.0.1"] else []⟩) =
      false ∧
    Allowed (Middleware ⟨⟨[], [], false⟩, true⟩).IpFiltering "198.51.100.7" = true := by
  decide

/-- Claim C6 (options precedence), evaluated on the code: with `10.0.0.0/16` in
`AllowedIPs`, a range that contains 10.0.0.1, and `10.0.0.1` in `BlockedIPs`, the
address 10.0.0.1 is not allowed, under either default. -/
theorem blocked_address_beats_allowed_range :
    (ParseCIDR "10.0.0.0/16").map (fun p => p.2.Contains (ParseIP "10.0.0.1")) = some true ∧
    Allowed (New ⟨["10.0.0.0/16"], ["10.0.0.1"], false⟩) "10.0.0.1" = false ∧
    Allowed (New ⟨["10.0.0.0/16"], ["10.0.0.1"], true⟩) "10.0.0.1" = false := by
  decide

/-- Claim C7 (construction order): `New` applies every entry of the block list as a
block rule and then every entry of the allow list as an allow rule.  The exact-address
table holds allow under the keys of the allowed specs, block under the keys of the
blocked specs that no allowed spec has, and nothing else; under a range spec the range
list holds one entry, marked allow when the spec is in the allow list, marked block
when it is in the block list only, and no entry when it is in neither.  So an address
that is in both lists is allowed, while an address in the block list whose key no
allowed spec has is blocked; and a range spec in both lists has exactly one entry,
marked allow, while one in the block list only has exactly one entry, marked block. -/
theorem construction_order (opts : Options) :
    (∀ k : String,
      (New opts).ips k =
        if opts.AllowedIPs.any (fun x => exactKey x == some k) then some true
        else if opts.BlockedIPs.any (fun x => exactKey x == some k) then some false
        else none) ∧
    (∀ (r : String) (ip : IP) (n : IPNet), ParseCIDR r = some (ip, n) →
      (IPMask.Size n.Mask).1 ≠ (IPMask.Size n.Mask).2 →
      (New opts).subnets.filter (fun sn => decide (sn.str = r)) =
        if r ∈ opts.AllowedIPs then [⟨r, n, true⟩]
        else if r ∈ opts.BlockedIPs then [⟨r, n, false⟩]
        else []) ∧
    (∀ (s : String) (b : List Nat), ParseIP s = some b →
      s ∈ opts.BlockedIPs → s ∈ opts.AllowedIPs → Allowed (New opts) s = true) ∧
    (∀ (s : String) (b : List Nat), ParseIP s = some b → s ∈ opts.BlockedIPs →
      opts.AllowedIPs.any (fun x => exactKey x == some (IP.string (some b))) = false →
      Allowed (New opts) s = false) ∧
    (∀ (r : String) (ip : IP) (n : IPNet), ParseCIDR r = some (ip, n) →
      (IPMask.Size n.Mask).1 ≠ (IPMask.Size n.Mask).2 →
      r ∈ opts.BlockedIPs → r ∈ opts.AllowedIPs →
      (New opts).subnets.filter (fun sn => decide (sn.str = r)) = [⟨r, n, true⟩]) ∧
    (∀ (r : String) (ip : IP) (n : IPNet), ParseCIDR r = some (ip, n) →
      (IPMask.Size n.Mask).1 ≠ (IPMask.Size n.Mask).2 →
      r ∈ opts.BlockedIPs → r ∉ opts.AllowedIPs →
      (New opts).subnets.filter (fun sn => decide (sn.str = r)) = [⟨r, n, false⟩]) := by
  refine ⟨New_ips opts, New_subnets_filter opts, ?_, ?_, ?_, ?_⟩
  · intro s b hs _ hsA
    unfold Allowed
    rw [hs]
    apply NetAllowed_of_exact
    rw [New_ips]
    have hany : opts.AllowedIPs.any (fun x => exactKey x == some (IP.string (some b))) = true :=
      List.any_eq_true.2 ⟨s, hsA, by simp [exactKey_of_ParseIP s b hs]⟩
    rw [if_pos hany]
  · intro s b hs hsB hno
    unfold Allowed
    rw [hs]
    apply NetAllowed_of_exact
    rw [New_ips]
    have hany : opts.BlockedIPs.any (fun x => exactKey x == some (IP.string (some b))) = true :=
      List.any_eq_true.2 ⟨s, hsB, by simp [exactKey_of_ParseIP s b hs]⟩
    rw [hno, hany]
    simp
  · intro r ip n hr hsz _ hrA
    rw [New_subnets_filter opts r ip n hr hsz, if_pos hrA]
  · intro r ip n hr hsz hrB hrA
    rw [New_subnets_filter opts r ip n hr hsz, if_neg hrA, if_pos hrB]

/-- Claim C7 at a configuration that shares one address only (a second address is
blocked only), and at one that shares one range only (listed twice among the blocked
ones, next to a range that is blocked only). -/
theorem construction_order_witness :
    Allowed (New ⟨["192.0.2.7"], ["192.0.2.7", "192.0.2.9"], false⟩) "192.0.2.7" = true ∧
    Allowed (New ⟨["192.0.2.7"], ["192.0.2.7", "192.0.2.9"], false⟩) "192.0.2.9" = false ∧
    (New ⟨["10.0.0.0/8"], ["10.0.0.0/8", "10.0.0.0/8", "172.16.0.0/12"], true⟩).subnets.filter
      (fun sn => decide (sn.str = "10.0.0.0/8")) =
      [⟨"10.0.0.0/8", ⟨some [10, 0, 0, 0], some [255, 0, 0, 0]⟩, true⟩] ∧
    (New ⟨["10.0.0.0/8"], ["10.0.0.0/8", "10.0.0.0/8", "172.16.0.0/12"], true⟩).subnets.filter
      (fun sn => decide (sn.str = "172.16.0.0/12")) =
      [⟨"172.16.0.0/12", ⟨some [172, 16, 0, 0], some [255, 240, 0, 0]⟩, false⟩] :=
  ⟨(construction_order ⟨["192.0.2.7"], ["192.0.2.7", "192.0.2.9"], false⟩).2.2.1 "192.0.2.7"
      [0, 0, 0, 0, 0, 0, 0, 0, 0, 0, 255, 255, 192, 0, 2, 7] (by decide) (by decide) (by decide),
    (construction_order ⟨["192.0.2.7"], ["192.0.2.7", "192.0.2.9"], false⟩).2.2.2.1 "192.0.2.9"
      [0, 0, 0, 0, 0, 0, 0, 0, 0, 0, 255, 255, 192, 0, 2, 9] (by decide) (by decide) (by decide),
    (construction_order ⟨["10.0.0.0/8"], ["10.0.0.0/8", "10.0.0.0/8", "172.16.0.0/12"], true⟩).2.2.2.2.1
      "10.0.0.0/8" (some [0, 0, 0, 0, 0, 0, 0, 0, 0, 0, 255, 255, 10, 0, 0, 0])
      ⟨some [10, 0, 0, 0], some [255, 0, 0, 0]⟩ (by decide) (by decide) (by decide) (by decide),
    (construction_order ⟨["10.0.0.0/8"], ["10.0.0.0/8", "10.0.0.0/8", "172.16.0.0/12"], true⟩).2.2.2.2.2
      "172.16.0.0/12" (some [0, 0, 0, 0, 0, 0, 0, 0, 0, 0, 255, 255, 172, 16, 0, 0])
      ⟨some [172, 16, 0, 0], some [255, 240, 0, 0]⟩ (by decide) (by decide) (by decide)
      (by decide)⟩

/-- Claim C8 (malformed spec rejection): `ToggleIP` returns true exactly when the spec
parses as CIDR or as a plain address; when it returns false the filter (exact-address
table, range list, default verdict) is the one before the call; `not-an-ip` is such a
spec. -/
theorem ToggleIP_rejects_malformed_spec (f : IpFiltering) (s : String) (v : Bool) :
    ((ToggleIP f s v).2 = true ↔ ((ParseCIDR s).isSome = true ∨ (ParseIP s).isSome = true)) ∧
    ((ToggleIP f s v).2 = false → (ToggleIP f s v).1 = f) ∧
    ToggleIP f "not-an-ip" v = (f, false) := by
  refine ⟨?_, ?_, ?_⟩
  · unfold ToggleIP
    cases hc : ParseCIDR s with
    | some r =>
      obtain ⟨ip, n⟩ := r
      simp only [Option.isSome_some, true_or, iff_true]
      split
      · rfl
      · split <;> rfl
    | none =>
      cases hp : ParseIP s with
      | some b => simp
      | none => simp
  · unfold ToggleIP
    cases hc : ParseCIDR s with
    | some r =>
      obtain ⟨ip, n⟩ := r
      simp only
      split
      · intro h; exact absurd h (by simp)
      · split <;> (intro h; exact absurd h (by simp))
    | none =>
      cases hp : ParseIP s with
      | some b => simp
      | none => simp
  · have h1 : ParseCIDR "not-an-ip" = none := by decide
    have h2 : ParseIP "not-an-ip" = none := by decide
    simp only [ToggleIP, h1, h2]

/-- Claim C9 (single-host normalization): for every address text `a` that parses
(without zone), `ToggleIP` of its full-width CIDR spec (`a/32` for an IPv4 address,
`a/128` for an IPv6 one) writes the verdict under the normalized form of `a` in the
exact-address table and changes nothing else; so after `AllowIP "203.0.113.5/32"` the
address 203.0.113.5 is allowed, and it stays allowed after blocking any range
specs. -/
theorem single_host_normalization (f : IpFiltering) (a : String) (A : Addr) (v : Bool)
    (rs : List String) (ha : ParseAddr a.toList = some A) (hz : A.zone = [])
    (hrs : ∀ r ∈ rs, isRangeSpec r = true) :
    ToggleIP f (a ++ (if A.is4 then "/32" else "/128")) v =
      ({ f with ips := Function.update f.ips (IP.string (ParseIP a)) (some v) }, true) ∧
    AllowIP f "203.0.113.5/32" =
      ({ f with ips := Function.update f.ips "203.0.113.5" (some true) }, true) ∧
    Allowed (AllowIP f "203.0.113.5/32").1 "203.0.113.5" = true ∧
    Allowed (rs.foldl (fun g r => (BlockIP g r).1) (AllowIP f "203.0.113.5/32").1)
      "203.0.113.5" = true := by
  have hp : ParseIP a = some A.as16 := by
    unfold ParseIP
    rw [ha]
    simp [hz]
  have hm : ∀ w : Nat, w = 32 ∨ w = 128 →
      (IPMask.Size (CIDRMask w w)).1 = (IPMask.Size (CIDRMask w w)).2 := by
    intro w hw
    rcases hw with rfl | rfl <;> decide
  have hw : A.BitLen = 32 ∨ A.BitLen = 128 := by
    unfold Addr.BitLen; cases A.is4 <;> simp
  have hex : ParseCIDR "203.0.113.5/32" =
      some (some [0, 0, 0, 0, 0, 0, 0, 0, 0, 0, 255, 255, 203, 0, 113, 5],
        ⟨some [203, 0, 113, 5], some [255, 255, 255, 255]⟩) := by decide
  have hk : IP.string (some [0, 0, 0, 0, 0, 0, 0, 0, 0, 0, 255, 255, 203, 0, 113, 5]) =
      "203.0.113.5" := by decide
  have hallow : AllowIP f "203.0.113.5/32" =
      ({ f with ips := Function.update f.ips "203.0.113.5" (some true) }, true) := by
    unfold AllowIP
    rw [ToggleIP_of_full_width f _ true _ _ hex (by decide), hk]
  have hq : ParseIP "203.0.113.5" =
      some [0, 0, 0, 0, 0, 0, 0, 0, 0, 0, 255, 255, 203, 0, 113, 5] := by decide
  refine ⟨?_, hallow, ?_, ?_⟩
  · rw [ToggleIP_of_full_width f _ v _ _ (ParseCIDR_full_width a A ha hz) (hm _ hw), hp]
  · unfold Allowed
    rw [hq]
    apply NetAllowed_of_exact
    rw [hallow, hk]
    simp
  · unfold Allowed
    rw [hq]
    apply NetAllowed_of_exact
    rw [foldl_BlockIP_range_ips rs hrs, hallow, hk]
    simp

/-- Claim C9 at the IPv6 address 2001:db8::1 with verdict block, and at two later
block ranges that contain 203.0.113.5, on a store with default block. -/
theorem single_host_normalization_witness :
    isRangeSpec "203.0.113.0/24" = true ∧
    (ToggleIP (New ⟨[], [], true⟩) "2001:db8::1/128" false).1.ips "2001:db8::1" = some false ∧
    Allowed (["203.0.113.0/24", "0.0.0.0/0"].foldl (fun g r => (BlockIP g r).1)
      (AllowIP (New ⟨[], [], true⟩) "203.0.113.5/32").1) "203.0.113.5" = true :=
  ⟨by decide, by decide,
    (single_host_normalization (New ⟨[], [], true⟩) "2001:db8::1"
      ⟨[32, 1, 13, 184, 0, 0, 0, 0, 0, 0, 0, 0, 0, 0, 0, 1], false, []⟩ false
      ["203.0.113.0/24", "0.0.0.0/0"] (by decide) (by decide) (by decide)).2.2.2⟩

/-- Claim C10 (last write wins for single addresses): for every rule store and every
address `a` that parses, `a` is blocked after `BlockIP a` and allowed after
`AllowIP a`, whatever the store held before, and blocking right after allowing flips
the verdict; from `New` of the empty options 116.31.116.51 is allowed, and after
`BlockIP` it is blocked. -/
theorem last_write_wins_for_single_address (f : IpFiltering) (a : String) (b : List Nat)
    (ha : ParseIP a = some b) :
    Allowed (BlockIP f a).1 a = false ∧ Allowed (AllowIP f a).1 a = true ∧
    Allowed (BlockIP (AllowIP f a).1 a).1 a = false ∧
    Allowed (New ⟨[], [], false⟩) "116.31.116.51" = true ∧
    Blocked (BlockIP (New ⟨[], [], false⟩) "116.31.116.51").1 "116.31.116.51" = true := by
  have hblock : ∀ g : IpFiltering, Allowed (BlockIP g a).1 a = false := by
    intro g
    unfold BlockIP Allowed
    rw [ToggleIP_of_ParseIP g a b false ha, ha]
    exact NetAllowed_of_exact _ b false (by simp)
  refine ⟨hblock f, ?_, hblock _, by decide, by decide⟩
  unfold AllowIP Allowed
  rw [ToggleIP_of_ParseIP f a b true ha, ha]
  exact NetAllowed_of_exact _ b true (by simp)

/-- Claim C10 at a store that already allows 116.31.116.51 exactly and by a range,
with default allow. -/
theorem last_write_wins_for_single_address_witness :
    Allowed (New ⟨["116.31.116.51", "116.0.0.0/8"], [], false⟩) "116.31.116.51" = true ∧
    Allowed (BlockIP (New ⟨["116.31.116.51", "116.0.0.0/8"], [], false⟩) "116.31.116.51").1
      "116.31.116.51" = false :=
  ⟨by decide,
    (last_write_wins_for_single_address (New ⟨["116.31.116.51", "116.0.0.0/8"], [], false⟩)
      "116.31.116.51" [0, 0, 0, 0, 0, 0, 0, 0, 0, 0, 255, 255, 116, 31, 116, 51] (by decide)).1⟩

/-- Claim C11 (single-entry allowlist): the filter built from one allowed spec `e` with
block by default allows an address exactly when `e` covers it (`e` is that address, or
the address lies in the range `e`); `Allowed` on a text is `NetAllowed` on the parsed
address, and `NetAllowed` agrees on the 4-byte and the 16-byte form of an IPv4
address; with `10.0.0.0/16`, 10.0.0.1 and 10.0.42.1 are allowed and 10.42.0.1 is
blocked; with `222.25.118.1`, 222.25.118.1 is allowed and 222.25.118.2 is blocked. -/
theorem single_entry_allowlist (e t : String) (b : List Nat) (x0 x1 x2 x3 : Nat) :
    NetAllowed (New ⟨[e], [], true⟩) (some b) = covers e (some b) ∧
    Allowed (New ⟨[e], [], true⟩) t = NetAllowed (New ⟨[e], [], true⟩) (ParseIP t) ∧
    NetAllowed (New ⟨[e], [], true⟩) (some [x0, x1, x2, x3]) =
      NetAllowed (New ⟨[e], [], true⟩) (some (v4InV6Lead ++ [x0, x1, x2, x3])) ∧
    (Allowed (New ⟨["10.0.0.0/16"], [], true⟩) "10.0.0.1" = true ∧
     Allowed (New ⟨["10.0.0.0/16"], [], true⟩) "10.0.42.1" = true ∧
     Blocked (New ⟨["10.0.0.0/16"], [], true⟩) "10.42.0.1" = true) ∧
    (Allowed (New ⟨["222.25.118.1"], [], true⟩) "222.25.118.1" = true ∧
     Blocked (New ⟨["222.25.118.1"], [], true⟩) "222.25.118.2" = true ∧
     NetAllowed (New ⟨["222.25.118.1"], [], true⟩) (some [222, 25, 118, 1]) = true ∧
     NetBlocked (New ⟨["222.25.118.1"], [], true⟩) (some [222, 25, 118, 2]) = true) := by
  refine ⟨?_, rfl, NetAllowed_v4_forms _ x0 x1 x2 x3, ⟨by decide, by decide, by decide⟩,
    ⟨by decide, by decide, by rw [NetAllowed_v4_forms]; decide,
      by unfold NetBlocked; rw [NetAllowed_v4_forms]; decide⟩⟩
  have hnew : New ⟨[e], [], true⟩ =
      (ToggleIP ⟨⟨[e], [], true⟩, false, fun _ => none, fun _ => none, []⟩ e true).1 := by
    simp [New, AllowIP]
  rw [hnew, NetAllowed_some_eq]
  unfold covers ToggleIP
  cases hc : ParseCIDR e with
  | some p =>
    obtain ⟨ip, n⟩ := p
    simp only
    by_cases hsz : (IPMask.Size n.Mask).1 = (IPMask.Size n.Mask).2
    · simp only [if_pos hsz]
      by_cases hk : IP.string (some b) = IP.string ip
      · rw [hk, Function.update_same]
        simp
      · rw [Function.update_noteq hk]
        have hk2 : ¬ IP.string ip = IP.string (some b) := fun h => hk h.symm
        simp [hk2]
    · simp only [if_neg hsz, ToggleIP.loop]
      cases hcont : n.Contains (some b) <;> simp [hcont]
  | none =>
    cases hp : ParseIP e with
    | some a =>
      simp only
      by_cases hk : IP.string (some b) = IP.string (some a)
      · rw [hk, Function.update_same]
        simp
      · rw [Function.update_noteq hk]
        have hk2 : ¬ IP.string (some a) = IP.string (some b) := fun h => hk h.symm
        simp [hk2]
    | none => simp

/-- Claim C12 (default fallback): with empty allow and block lists, every address that
parses is allowed exactly when the configuration does not block by default. -/
theorem default_fallback (opts : Options) (a : String) (b : List Nat)
    (hA : opts.AllowedIPs = []) (hB : opts.BlockedIPs = []) (ha : ParseIP a = some b) :
    Allowed (New opts) a = !opts.BlockByDefault := by
  unfold Allowed New
  rw [ha, hA, hB]
  rfl

/-- Claim C12 at the two defaults, for an IPv4 and an IPv6 address. -/
theorem default_fallback_witness :
    Allowed (New ⟨[], [], true⟩) "192.0.2.1" = false ∧
    Allowed (New ⟨[], [], false⟩) "2001:db8::1" = true :=
  ⟨default_fallback ⟨[], [], true⟩ "192.0.2.1" [0, 0, 0, 0, 0, 0, 0, 0, 0, 0, 255, 255, 192, 0, 2, 1]
      rfl rfl (by decide),
    default_fallback ⟨[], [], false⟩ "2001:db8::1" [32, 1, 13, 184, 0, 0, 0, 0, 0, 0, 0, 0, 0, 0, 0, 1]
      rfl rfl (by decide)⟩

/-- Claim C13 (negation): for every rule store, every string and every binary address,
nil included, `Blocked` is the negation of `Allowed` and `NetBlocked` the negation of
`NetAllowed`; the nil address is blocked. -/
theorem Blocked_is_not_Allowed (f : IpFiltering) (s : String) (ip : IP) :
    Blocked f s = !Allowed f s ∧ NetBlocked f ip = !NetAllowed f ip ∧
    NetBlocked f none = true := ⟨rfl, rfl, rfl⟩

/-- Claim C14 (best-effort construction): `New` builds the same exact-address table, the
same range list and the same default verdict from a configuration as from the
configuration with every unparsable entry removed; in the example the valid entries
that follow invalid ones are applied. -/
theorem best_effort_construction (opts : Options) :
    (New opts).ips = (New opts.dropInvalid).ips ∧
    (New opts).subnets = (New opts.dropInvalid).subnets ∧
    (New opts).defaultAllowed = (New opts.dropInvalid).defaultAllowed ∧
    (⟨["bogus", "10.0.0.0/33", "192.0.2.7", "10.0.0.0/8"], ["300.1.1.1", "192.0.2.9"], true⟩ :
      Options).dropInvalid = ⟨["192.0.2.7", "10.0.0.0/8"], ["192.0.2.9"], true⟩ ∧
    Allowed (New ⟨["bogus", "10.0.0.0/33", "192.0.2.7", "10.0.0.0/8"], ["300.1.1.1", "192.0.2.9"],
      true⟩) "192.0.2.7" = true ∧
    Allowed (New ⟨["bogus", "10.0.0.0/33", "192.0.2.7", "10.0.0.0/8"], ["300.1.1.1", "192.0.2.9"],
      true⟩) "10.1.2.3" = true ∧
    Allowed (New ⟨["bogus", "10.0.0.0/33", "192.0.2.7", "10.0.0.0/8"], ["300.1.1.1", "192.0.2.9"],
      false⟩) "192.0.2.9" = false := by
  rw [New_dropInvalid opts]
  exact ⟨rfl, rfl, rfl, by decide, by decide, by decide, by decide⟩

/-- Claim C15 (range insert-or-update): for a spec that parses as a range with fewer ones
than bits, `ToggleIP` returns true and leaves the exact-address table and the default
verdict unchanged; if an entry is stored under the spec, the first such entry gets the
verdict in place, the list keeping its length, its specs and its networks in order;
otherwise one entry (spec, parsed network, verdict) is appended at the end. -/
theorem range_insert_or_update (f : IpFiltering) (s : String) (v : Bool) (ip : IP) (n : IPNet)
    (hc : ParseCIDR s = some (ip, n)) (hsz : (IPMask.Size n.Mask).1 ≠ (IPMask.Size n.Mask).2) :
    (ToggleIP f s v).2 = true ∧
    (ToggleIP f s v).1.ips = f.ips ∧
    (ToggleIP f s v).1.defaultAllowed = f.defaultAllowed ∧
    (∀ pre post e, f.subnets = pre ++ e :: post → e.str = s → (∀ sn ∈ pre, sn.str ≠ s) →
      (ToggleIP f s v).1.subnets = pre ++ { e with allowed := v } :: post) ∧
    ((∃ sn ∈ f.subnets, sn.str = s) →
      (ToggleIP f s v).1.subnets.length = f.subnets.length ∧
      (ToggleIP f s v).1.subnets.map (fun sn => sn.str) = f.subnets.map (fun sn => sn.str) ∧
      (ToggleIP f s v).1.subnets.map (fun sn => sn.ipnet) = f.subnets.map (fun sn => sn.ipnet)) ∧
    ((∀ sn ∈ f.subnets, sn.str ≠ s) →
      (ToggleIP f s v).1.subnets = f.subnets ++ [⟨s, n, v⟩]) := by
  unfold ToggleIP
  simp only [hc, if_neg hsz]
  refine ⟨?_, ?_, ?_, ?_, ?_, ?_⟩
  · split <;> rfl
  · split <;> rfl
  · split <;> rfl
  · intro pre post e hf he hpre
    rw [hf, ToggleIP_loop_found s v pre post e he hpre]
    simp
  · intro hex
    obtain ⟨k1, k2, k3⟩ := ToggleIP_loop_keeps s v f.subnets
    have hfound : (ToggleIP.loop s v f.subnets).1 = true := k3.2 hex
    simp only [hfound, Bool.true_eq_false, if_false]
    refine ⟨?_, k1, k2⟩
    have := congrArg List.length k1
    simpa using this
  · intro hno
    rw [ToggleIP_loop_not_found s v f.subnets hno]
    simp

/-- Claim C15 at a store with two ranges: an update in place of the first one, and
an append of a third one. -/
theorem range_insert_or_update_witness :
    (ToggleIP (New ⟨["10.0.0.0/8", "10.1.0.0/16"], [], false⟩) "10.0.0.0/8" false).1.subnets =
      [⟨"10.0.0.0/8", ⟨some [10, 0, 0, 0], some [255, 0, 0, 0]⟩, false⟩,
       ⟨"10.1.0.0/16", ⟨some [10, 1, 0, 0], some [255, 255, 0, 0]⟩, true⟩] ∧
    (ToggleIP (New ⟨["10.0.0.0/8", "10.1.0.0/16"], [], false⟩) "10.2.0.0/16" false).1.subnets =
      (New ⟨["10.0.0.0/8", "10.1.0.0/16"], [], false⟩).subnets ++
        [⟨"10.2.0.0/16", ⟨some [10, 2, 0, 0], some [255, 255, 0, 0]⟩, false⟩] :=
  ⟨(range_insert_or_update (New ⟨["10.0.0.0/8", "10.1.0.0/16"], [], false⟩) "10.0.0.0/8" false
      (some [0, 0, 0, 0, 0, 0, 0, 0, 0, 0, 255, 255, 10, 0, 0, 0])
      ⟨some [10, 0, 0, 0], some [255, 0, 0, 0]⟩ (by decide) (by decide)).2.2.2.1 []
      [⟨"10.1.0.0/16", ⟨some [10, 1, 0, 0], some [255, 255, 0, 0]⟩, true⟩]
      ⟨"10.0.0.0/8", ⟨some [10, 0, 0, 0], some [255, 0, 0, 0]⟩, true⟩
      (by decide) (by decide) (by decide),
    (range_insert_or_update (New ⟨["10.0.0.0/8", "10.1.0.0/16"], [], false⟩) "10.2.0.0/16" false
      (some [0, 0, 0, 0, 0, 0, 0, 0, 0, 0, 255, 255, 10, 2, 0, 0])
      ⟨some [10, 2, 0, 0], some [255, 255, 0, 0]⟩ (by decide) (by decide)).2.2.2.2.2
      (by decide)⟩

/-- Claim C16 (gate enforcement): `ServeHTTP` calls the next handler, once and with the
request it got, exactly when `Allowed (getIp r)` is true; otherwise it answers with
`http.Error`, status 403 and the text `Forbidden`, and does not call the next
handler. -/
theorem gate_enforcement (m : ipFilteringMiddleware) (r : Request) :
    (ServeHTTP m r = Served.next r ↔ Allowed m.IpFiltering (getIp m r) = true) ∧
    (ServeHTTP m r = Served.error "Forbidden" 403 ↔ Allowed m.IpFiltering (getIp m r) = false) ∧
    (ServeHTTP m r = Served.next r ∨ ServeHTTP m r = Served.error "Forbidden" 403) := by
  unfold ServeHTTP
  cases h : Allowed m.IpFiltering (getIp m r) <;> simp

/-- Claim C17 as stated fails: with the forwarded-for header trusted and absent, the
candidate address is the peer address 192.0.2.1, which is valid, and the request is
passed to the next handler. -/
theorem missing_forwarded_header_not_denied :
    (⟨"192.0.2.1:4711", fun _ => []⟩ : Request).HeaderGet XFFHeader = "" ∧
    getIp (Middleware ⟨⟨[], [], false⟩, true⟩) ⟨"192.0.2.1:4711", fun _ => []⟩ = "192.0.2.1" ∧
    ServeHTTP (Middleware ⟨⟨[], [], false⟩, true⟩) ⟨"192.0.2.1:4711", fun _ => []⟩ =
      Served.next ⟨"192.0.2.1:4711", fun _ => []⟩ := by
  refine ⟨by decide, by decide, ?_⟩
  have h : Allowed (Middleware ⟨⟨[], [], false⟩, true⟩).IpFiltering
      (getIp (Middleware ⟨⟨[], [], false⟩, true⟩) ⟨"192.0.2.1:4711", fun _ => []⟩) = true := by
    decide
  unfold ServeHTTP
  rw [h]
  rfl

/-- Claim C17, amended: for a request without forwarded-for header (or with an empty
one), whether the header is trusted or not, the candidate address is the host part of
the peer address, and the request is denied exactly when the filter does not allow
that address. -/
theorem getIp_without_forwarded_header (m : ipFilteringMiddleware) (r : Request)
    (hx : r.HeaderGet XFFHeader = "") :
    getIp m r = peerHost r ∧
    (ServeHTTP m r = Served.error "Forbidden" 403 ↔ Allowed m.IpFiltering (peerHost r) = false) := by
  have hg : getIp m r = peerHost r := by
    unfold getIp peerHost
    simp only [hx, ne_eq, not_true_eq_false, and_false, if_false]
  refine ⟨hg, ?_⟩
  rw [← hg]
  unfold ServeHTTP
  cases h : Allowed m.IpFiltering (getIp m r) <;> simp

/-- Claim C17, amended, at a request from a blocked peer and without forwarded-for
header. -/
theorem getIp_without_forwarded_header_witness :
    getIp (Middleware ⟨⟨[], ["192.0.2.1"], false⟩, true⟩) ⟨"192.0.2.1:4711", fun _ => []⟩ =
      "192.0.2.1" ∧
    ServeHTTP (Middleware ⟨⟨[], ["192.0.2.1"], false⟩, true⟩) ⟨"192.0.2.1:4711", fun _ => []⟩ =
      Served.error "Forbidden" 403 :=
  ⟨(getIp_without_forwarded_header (Middleware ⟨⟨[], ["192.0.2.1"], false⟩, true⟩)
      ⟨"192.0.2.1:4711", fun _ => []⟩ (by decide)).1.trans (by decide),
    (getIp_without_forwarded_header (Middleware ⟨⟨[], ["192.0.2.1"], false⟩, true⟩)
      ⟨"192.0.2.1:4711", fun _ => []⟩ (by decide)).2.2 (by decide)⟩

/-- Claim C18 (range-list invariant): in every filter reached from `New` by a sequence of
`AllowIP`, `BlockIP`, `ToggleIP` and `ToggleDefault` calls, every entry of the range
list has a mask with strictly fewer ones than bits, holds the network that
`net.ParseCIDR` gives for its spec, and no two entries have the same spec. -/
theorem range_list_invariant (opts : Options) (calls : List Call) :
    (∀ sn ∈ (reach opts calls).subnets,
      (IPMask.Size sn.ipnet.Mask).1 < (IPMask.Size sn.ipnet.Mask).2 ∧
      ∃ ip, ParseCIDR sn.str = some (ip, sn.ipnet)) ∧
    ((reach opts calls).subnets.map (fun sn => sn.str)).Nodup := by
  have hnew : (∀ sn ∈ (New opts).subnets,
      (IPMask.Size sn.ipnet.Mask).1 < (IPMask.Size sn.ipnet.Mask).2 ∧
      ∃ ip, ParseCIDR sn.str = some (ip, sn.ipnet)) ∧
      ((New opts).subnets.map (fun sn => sn.str)).Nodup := by
    unfold New
    obtain ⟨b1, b2⟩ := rangeInv_foldl_ToggleIP false opts.BlockedIPs
      ⟨opts, !opts.BlockByDefault, fun _ => none, fun _ => none, []⟩
      (by intro sn hsn; simp at hsn) (by simp)
    exact rangeInv_foldl_ToggleIP true opts.AllowedIPs _ b1 b2
  unfold reach
  generalize New opts = f at hnew
  induction calls generalizing f with
  | nil => exact hnew
  | cons c cs ih =>
    rw [List.foldl_cons]
    apply ih
    cases c with
    | AllowIP ip => exact rangeInv_ToggleIP f ip true hnew.1 hnew.2
    | BlockIP ip => exact rangeInv_ToggleIP f ip false hnew.1 hnew.2
    | ToggleIP str allowed => exact rangeInv_ToggleIP f str allowed hnew.1 hnew.2
    | ToggleDefault allowed => exact hnew

/-- Claim C19 (frame of `ToggleDefault`): the call changes the default verdict only;
afterwards an address that parses is decided by the new default when it has no exact
entry and no range contains it, and as before the call otherwise. -/
theorem ToggleDefault_frame (f : IpFiltering) (v : Bool) (a : String) (b : List Nat)
    (ha : ParseIP a = some b) :
    (ToggleDefault f v).ips = f.ips ∧ (ToggleDefault f v).subnets = f.subnets ∧
    (ToggleDefault f v).defaultAllowed = v ∧
    ((f.ips (IP.string (some b)) = none ∧
        f.subnets.any (fun sn => sn.ipnet.Contains (some b)) = false) →
      Allowed (ToggleDefault f v) a = v) ∧
    (¬ (f.ips (IP.string (some b)) = none ∧
        f.subnets.any (fun sn => sn.ipnet.Contains (some b)) = false) →
      Allowed (ToggleDefault f v) a = Allowed f a) := by
  refine ⟨rfl, rfl, rfl, ?_, ?_⟩
  · rintro ⟨h1, h2⟩
    have h3 : ∀ sn ∈ f.subnets, sn.ipnet.Contains (some b) = false := by
      intro sn hsn
      cases hc : sn.ipnet.Contains (some b) with
      | false => rfl
      | true =>
        have : f.subnets.any (fun sn => sn.ipnet.Contains (some b)) = true :=
          List.any_eq_true.2 ⟨sn, hsn, hc⟩
        rw [h2] at this
        exact absurd this (by simp)
    have h4 : f.subnets.any (fun sn => sn.ipnet.Contains (some b) && sn.allowed) = false := by
      rw [List.any_eq_false]
      intro sn hsn
      simp [h3 sn hsn]
    have h5 : f.subnets.any (fun sn => sn.ipnet.Contains (some b) && !sn.allowed) = false := by
      rw [List.any_eq_false]
      intro sn hsn
      simp [h3 sn hsn]
    unfold Allowed
    rw [ha, NetAllowed_some_eq]
    show (match f.ips (IP.string (some b)) with
      | some verdict => verdict
      | none =>
        if f.subnets.any (fun sn => sn.ipnet.Contains (some b) && sn.allowed) then true
        else if f.subnets.any (fun sn => sn.ipnet.Contains (some b) && !sn.allowed) then false
        else v) = v
    rw [h1, h4, h5]
    simp
  · intro hn
    unfold Allowed
    rw [ha, NetAllowed_some_eq, NetAllowed_some_eq]
    show (match f.ips (IP.string (some b)) with
      | some verdict => verdict
      | none =>
        if f.subnets.any (fun sn => sn.ipnet.Contains (some b) && sn.allowed) then true
        else if f.subnets.any (fun sn => sn.ipnet.Contains (some b) && !sn.allowed) then false
        else v) = _
    cases hk : f.ips (IP.string (some b)) with
    | some w => rfl
    | none =>
      simp only
      have hany : f.subnets.any (fun sn => sn.ipnet.Contains (some b)) = true := by
        cases h : f.subnets.any (fun sn => sn.ipnet.Contains (some b)) with
        | true => rfl
        | false => exact absurd ⟨hk, h⟩ hn
      obtain ⟨sn, hsn, hc⟩ := List.any_eq_true.1 hany
      cases hal : sn.allowed with
      | true =>
        have : f.subnets.any (fun sn => sn.ipnet.Contains (some b) && sn.allowed) = true :=
          List.any_eq_true.2 ⟨sn, hsn, by simp [hc, hal]⟩
        simp [this]
      | false =>
        have : f.subnets.any (fun sn => sn.ipnet.Contains (some b) && !sn.allowed) = true :=
          List.any_eq_true.2 ⟨sn, hsn, by simp [hc, hal]⟩
        simp [this]

/-- Claim C19 at a store with one exact entry and one range, for an address outside
both and an address inside the range. -/
theorem ToggleDefault_frame_witness :
    Allowed (ToggleDefault (New ⟨["10.0.0.0/8"], ["192.0.2.1"], false⟩) false) "198.51.100.7" =
      false ∧
    Allowed (ToggleDefault (New ⟨["10.0.0.0/8"], ["192.0.2.1"], false⟩) false) "10.1.2.3" =
      Allowed (New ⟨["10.0.0.0/8"], ["192.0.2.1"], false⟩) "10.1.2.3" :=
  ⟨(ToggleDefault_frame (New ⟨["10.0.0.0/8"], ["192.0.2.1"], false⟩) false "198.51.100.7"
      [0, 0, 0, 0, 0, 0, 0, 0, 0, 0, 255, 255, 198, 51, 100, 7] (by decide)).2.2.2.1
      ⟨by decide, by decide⟩,
    (ToggleDefault_frame (New ⟨["10.0.0.0/8"], ["192.0.2.1"], false⟩) false "10.1.2.3"
      [0, 0, 0, 0, 0, 0, 0, 0, 0, 0, 255, 255, 10, 1, 2, 3] (by decide)).2.2.2.2
      (by decide)⟩

/-- Claim C20 (monotonicity): for every rule store, every spec and every address text,
an address allowed before `AllowIP` of the spec is allowed after it, and an address
not allowed before `BlockIP` of the spec is not allowed after it. -/
theorem rule_changes_are_monotone (f : IpFiltering) (s a : String) :
    (Allowed f a = true → Allowed (AllowIP f s).1 a = true) ∧
    (Allowed f a = false → Allowed (BlockIP f s).1 a = false) := by
  unfold Allowed AllowIP BlockIP
  cases ha : ParseIP a with
  | none => exact ⟨fun h => absurd h (by simp [NetAllowed]), fun _ => rfl⟩
  | some b =>
    exact ⟨NetAllowed_ToggleIP_mono f s true b, NetAllowed_ToggleIP_mono f s false b⟩

/-- Claim C20 at a store where 10.1.2.3 is allowed by default and stays allowed when
a range around it is allowed, and where 10.1.2.3 is blocked by a range and stays
blocked when that range is blocked again. -/
theorem rule_changes_are_monotone_witness :
    Allowed (AllowIP (New ⟨[], ["10.0.0.0/16"], false⟩) "10.0.0.0/8").1 "10.1.2.3" = true ∧
    Allowed (BlockIP (New ⟨["10.0.0.0/16"], ["10.0.0.0/8"], false⟩) "10.0.0.0/8").1 "10.1.2.3" =
      false :=
  ⟨(rule_changes_are_monotone (New ⟨[], ["10.0.0.0/16"], false⟩) "10.0.0.0/8" "10.1.2.3").1
      (by decide),
    (rule_changes_are_monotone (New ⟨["10.0.0.0/16"], ["10.0.0.0/8"], false⟩) "10.0.0.0/8"
      "10.1.2.3").2 (by decide)⟩

end ipfiltering
